import Mathlib

/-! Verification development for the shrine pusher firmware (shrine_pusher.ino).

This file gives a shallow embedding of the motion and state-machine engine of
the firmware: the accelerated step generation (doSteps, moveAxis), the
limit-seeking primitives (moveAxisToLimit, homeAxis), the sequence
orchestrator (performHoming, extendSequence, retractSequence), the motor
enable and idle lifecycle (enableMotors, disableMotors, checkMotorIdle), the
emergency stop handler, and the top-level loop dispatch.

Modelling conventions:
* Machine integers are modelled as Nat.  All quantities that appear
  (delays up to 3000, step counts up to 100000) stay far below the 16-bit
  unsigned-int and 32-bit long bounds of the AVR target, so no wraparound
  occurs in any reachable computation; truncated Nat subtraction agrees with
  the C arithmetic at every use site (noted locally where relevant).
* Input pins are modelled as Boolean streams indexed by the number of step
  pulses already issued by the running primitive: env.limit n (resp.
  env.estop n) is the active-low reading of the limit (resp. E-stop) pin at
  the poll that happens after n pulses, with true meaning the pin reads LOW
  (switch asserted / button pressed).
* digitalWrite side effects on the enable pins and the global state
  variables are collected in a Ctrl record; step pulses and the enable
  settling delay are collected as an event list.
* emergencyStop in the source ends in an infinite loop and never returns;
  a primitive that reaches it is reported with halted = true and no code
  after the call site is modelled as running.
* Unbounded while loops (homeAxis, the trigger wait) take fuel and return
  Option; none means the loop was still running after fuel iterations.
-/

namespace Shrine

/-- Configuration constant STEPS_PER_MM (shrine_pusher.ino line 38). -/
def STEPS_PER_MM : Nat := 80

/-- Configuration constant X_MAX_TRAVEL_MM (line 39). -/
def X_MAX_TRAVEL_MM : Nat := 81

/-- Configuration constant Y_MAX_TRAVEL_MM (line 40). -/
def Y_MAX_TRAVEL_MM : Nat := 43

/-- Configuration constant HOMING_SPEED_DELAY (line 50). -/
def HOMING_SPEED_DELAY : Nat := 2000

/-- Configuration constant NORMAL_SPEED_DELAY (line 51). -/
def NORMAL_SPEED_DELAY : Nat := 1500

/-- Configuration constant TEST_SPEED_DELAY (line 52). -/
def TEST_SPEED_DELAY : Nat := 1500

/-- Configuration constant START_SPEED_DELAY (line 53). -/
def START_SPEED_DELAY : Nat := 3000

/-- Configuration constant ACCEL_STEPS (line 54). -/
def ACCEL_STEPS : Nat := 200

/-- Configuration constant MOTOR_IDLE_TIMEOUT in milliseconds (line 57). -/
def MOTOR_IDLE_TIMEOUT : Nat := 2000

/-- Configuration constant TEST_MODE (line 34). -/
def TEST_MODE : Bool := false

/-- Configuration constant AUTO_HOMING (line 35). -/
def AUTO_HOMING : Bool := true

/-- The two stepper axes: X is horizontal, Y is elevation. -/
inductive Axis
  | X
  | Y
deriving DecidableEq

/-- Per-axis maximum travel in millimetres (lines 39-40). -/
def axisMaxTravelMM : Axis → Nat
  | .X => X_MAX_TRAVEL_MM
  | .Y => Y_MAX_TRAVEL_MM

/-- Safety cap of moveAxisToLimit (line 369):
`maxSteps = (axisName == 'Y' ? Y_MAX_TRAVEL_MM : X_MAX_TRAVEL_MM) * STEPS_PER_MM * 1.2`.
The C expression promotes to double and truncates back to long.  For both
axes the rounded double product is the exact integer (6480 * 1.2 rounds to
7776.0 and 3440 * 1.2 rounds to 4128.0), so the value equals
`travel * STEPS_PER_MM * 12 / 10` computed in Nat. -/
def axisCapSteps (a : Axis) : Nat := axisMaxTravelMM a * STEPS_PER_MM * 12 / 10

/-- Sensor input streams of one running primitive, indexed by the number of
step pulses issued so far.  A true reading means the active-low pin reads
LOW (limit switch asserted, E-stop pressed). -/
structure Env where
  limit : Nat → Bool
  estop : Nat → Bool

/-- The SystemState enumeration (lines 60-68). -/
inductive SystemState
  | STATE_INIT
  | STATE_HOMING
  | STATE_READY
  | STATE_EXTENDING
  | STATE_RETRACTING
  | STATE_STOPPED
  | STATE_TEST_MODE
deriving DecidableEq

/-- The controller's mutable globals together with the levels driven onto
the two enable outputs (X_ENABLE_PIN and Y_ENABLE_PIN; HIGH disables the
drivers).  lastMotorActivity holds the millis() timestamp of the last
recorded motor activity (line 74). -/
structure Ctrl where
  currentState : SystemState
  isHomed : Bool
  motorsEnabled : Bool
  xEnableHigh : Bool
  yEnableHigh : Bool
  lastMotorActivity : Nat
deriving DecidableEq

/-- Controller state right after the global initialisation and the
start-of-setup writes (lines 70-75 and 129-132): INIT, not homed, drivers
disabled. -/
def initialCtrl : Ctrl :=
  { currentState := .STATE_INIT
    isHomed := false
    motorsEnabled := false
    xEnableHigh := true
    yEnableHigh := true
    lastMotorActivity := 0 }

/-- enableMotors (lines 84-90): drive both enable pins LOW, set the
motorsEnabled flag, record the activity timestamp, then delay(10) so the
drivers settle.  The settling delay shows up as the Ev.settle event in the
event traces of the primitives that call this. -/
def enableMotors (now : Nat) (c : Ctrl) : Ctrl :=
  { c with
    yEnableHigh := false
    xEnableHigh := false
    motorsEnabled := true
    lastMotorActivity := now }

/-- disableMotors (lines 93-98): drive both enable pins HIGH and clear the
motorsEnabled flag. -/
def disableMotors (c : Ctrl) : Ctrl :=
  { c with yEnableHigh := true, xEnableHigh := true, motorsEnabled := false }

/-- checkMotorIdle (lines 101-105): disable the drivers when they are
enabled and the elapsed idle time strictly exceeds MOTOR_IDLE_TIMEOUT.
millis() is monotone far below the 32-bit wrap in any relevant run, so the
unsigned subtraction agrees with Nat subtraction here. -/
def checkMotorIdle (now : Nat) (c : Ctrl) : Ctrl :=
  if c.motorsEnabled = true ∧ MOTOR_IDLE_TIMEOUT < now - c.lastMotorActivity then
    disableMotors c
  else c

/-- emergencyStop (lines 434-441): drive both enable pins HIGH, force the
state to STOPPED, clear the homed flag, then spin forever.  The source does
not clear the motorsEnabled flag (only the pins), and that is preserved
here; the infinite loop is modelled by the halted flag of the caller. -/
def emergencyStop (c : Ctrl) : Ctrl :=
  { c with
    yEnableHigh := true
    xEnableHigh := true
    currentState := .STATE_STOPPED
    isHomed := false }

/-- Acceleration-ramp delay (lines 277, 345, 348, 380, 465, 469):
`START_SPEED_DELAY - ((START_SPEED_DELAY - target) * i / ACCEL_STEPS)`.
Every call site has target ≤ START_SPEED_DELAY, so the truncated Nat
subtractions agree with the C unsigned arithmetic. -/
def rampDelay (target i : Nat) : Nat :=
  START_SPEED_DELAY - (START_SPEED_DELAY - target) * i / ACCEL_STEPS

/-- Per-step delay of the fixed-count loops (doSteps lines 461-473, and
the identical computation in moveAxis lines 343-351): ramp up while
`i < ACCEL_STEPS`, ramp down from steps-remaining while
`i > numSteps - ACCEL_STEPS` (a signed long comparison, hence the Int
cast), cruise at the target delay otherwise.  The loop only evaluates this
with i < numSteps, where the Nat `numSteps - i` agrees with the C long
stepsFromEnd. -/
def doStepsDelay (numSteps target i : Nat) : Nat :=
  if i < ACCEL_STEPS then rampDelay target i
  else if (numSteps : Int) - (ACCEL_STEPS : Int) < (i : Int) then
    rampDelay target (numSteps - i)
  else target

/-- Per-step delay of the limit-seeking loops (homeAxis lines 276-280 and
moveAxisToLimit lines 379-383): ramp up while the step count is below
ACCEL_STEPS, then cruise; there is no deceleration branch. -/
def limitSeekDelay (target i : Nat) : Nat :=
  if i < ACCEL_STEPS then rampDelay target i else target

/-- Observable events of one motion primitive: the enableMotors call, its
10 ms settling delay, and each step pulse tagged with the inter-step delay
applied after it. -/
inductive Ev
  | enable
  | settle
  | pulse (delay : Nat)
deriving DecidableEq

/-- Step-pulse delays of an event list, in order. -/
def pulsesOf (evs : List Ev) : List Nat :=
  evs.filterMap fun e =>
    match e with
    | .pulse d => some d
    | _ => none

/-- Result of one motion primitive.  halted means execution reached
emergencyStop and is parked in its infinite loop (the primitive never
returns); success is the C return value and is only meaningful when the
primitive returned (halted = false). -/
structure MoveRes where
  halted : Bool
  success : Bool
  steps : Nat
  events : List Ev
  ctrl : Ctrl
deriving DecidableEq

/-- Loop of moveAxisToLimit (lines 375-391) with the exit code (lines
394-401).  remaining counts the iterations left before stepCount reaches
maxSteps; k is the current stepCount.  Each iteration re-reads the limit
pin (the while guard), polls the E-stop, then pulses with the ramp-up /
cruise delay.  On the cap exit the primitive returns false without
touching lastMotorActivity; on the limit exit it records activity and
returns true. -/
def moveToLimitAux (env : Env) (now : Nat) (c : Ctrl) :
    Nat → Nat → List Ev → MoveRes
  | 0, k, evs =>
    { halted := false, success := false, steps := k, events := evs.reverse, ctrl := c }
  | remaining + 1, k, evs =>
    if env.limit k then
      { halted := false, success := true, steps := k, events := evs.reverse,
        ctrl := { c with lastMotorActivity := now } }
    else if env.estop k then
      { halted := true, success := false, steps := k, events := evs.reverse,
        ctrl := emergencyStop c }
    else
      moveToLimitAux env now c remaining (k + 1)
        (Ev.pulse (limitSeekDelay NORMAL_SPEED_DELAY k) :: evs)

/-- moveAxisToLimit (lines 363-402): enableMotors, set the direction pin,
then run the capped limit-seeking loop with the NORMAL_SPEED_DELAY
profile.  The cap is axisCapSteps of the axis. -/
def moveAxisToLimit (a : Axis) (env : Env) (now : Nat) (c : Ctrl) : MoveRes :=
  let c1 := enableMotors now c
  let r := moveToLimitAux env now c1 (axisCapSteps a) 0 []
  { r with events := Ev.enable :: Ev.settle :: r.events }

/-- Loop of homeAxis (lines 273-286): step with the HOMING_SPEED_DELAY
ramp until the limit pin reads LOW, polling the E-stop before every pulse.
The loop has no step cap, so fuel bounds the modelled iterations; none
means the loop was still running.  The C `return false` after checkEStop
is dead code (emergencyStop never returns), reported as halted = true. -/
def homeAxisAux (env : Env) (c : Ctrl) : Nat → Nat → List Ev → Option MoveRes
  | 0, _, _ => none
  | fuel + 1, k, evs =>
    if env.limit k then
      some { halted := false, success := true, steps := k, events := evs.reverse, ctrl := c }
    else if env.estop k then
      some { halted := true, success := false, steps := k, events := evs.reverse,
             ctrl := emergencyStop c }
    else
      homeAxisAux env c fuel (k + 1)
        (Ev.pulse (limitSeekDelay HOMING_SPEED_DELAY k) :: evs)

/-- homeAxis (lines 258-291): if the limit already reads LOW, return true
with no movement (lines 260-264); otherwise set the direction pin and run
the uncapped seek loop.  homeAxis itself neither calls enableMotors nor
updates lastMotorActivity (its caller performHoming enables the motors). -/
def homeAxis (env : Env) (c : Ctrl) (fuel : Nat) : Option MoveRes :=
  if env.limit 0 then
    some { halted := false, success := true, steps := 0, events := [], ctrl := c }
  else
    homeAxisAux env c fuel 0 []

/-- Loop of moveAxis (lines 340-358): numSteps is the total step count of
the move (fixed ahead of time, used by the deceleration branch of the
delay profile), remaining the iterations left, k the loop index i.  The
E-stop is polled before every pulse; the limit pins are never read. -/
def moveAxisAux (env : Env) (numSteps now : Nat) (c : Ctrl) :
    Nat → Nat → List Ev → MoveRes
  | 0, k, evs =>
    { halted := false, success := true, steps := k, events := evs.reverse,
      ctrl := { c with lastMotorActivity := now } }
  | remaining + 1, k, evs =>
    if env.estop k then
      { halted := true, success := false, steps := k, events := evs.reverse,
        ctrl := emergencyStop c }
    else
      moveAxisAux env numSteps now c remaining (k + 1)
        (Ev.pulse (doStepsDelay numSteps NORMAL_SPEED_DELAY k) :: evs)

/-- moveAxis (lines 331-361): enableMotors, set the direction pin, run the
fixed-count loop with the full trapezoidal profile at NORMAL_SPEED_DELAY,
and record activity on completion.  The C function returns void; success
is true exactly when the loop ran to completion. -/
def moveAxis (env : Env) (steps now : Nat) (c : Ctrl) : MoveRes :=
  let c1 := enableMotors now c
  let r := moveAxisAux env steps now c1 steps 0 []
  { r with events := Ev.enable :: Ev.settle :: r.events }

/-- Loop of doSteps (lines 461-481): the body computes the trapezoidal
delay and pulses.  It reads neither the E-stop nor the limit inputs; there
is no checkEStop call anywhere in doSteps (compare moveAxis line 341). -/
def doStepsAux (numSteps target now : Nat) (c : Ctrl) :
    Nat → Nat → List Ev → MoveRes
  | 0, k, evs =>
    { halted := false, success := true, steps := k, events := evs.reverse,
      ctrl := { c with lastMotorActivity := now } }
  | remaining + 1, k, evs =>
    doStepsAux numSteps target now c remaining (k + 1)
      (Ev.pulse (doStepsDelay numSteps target k) :: evs)

/-- doSteps (lines 455-484): enableMotors, then the fixed-count ramped
loop, then record activity.  The env argument carries the physical inputs
that exist while the move runs; the source loop never reads them. -/
def doSteps (env : Env) (numSteps targetDelay now : Nat) (c : Ctrl) : MoveRes :=
  let c1 := enableMotors now c
  let r := doStepsAux numSteps targetDelay now c1 numSteps 0 []
  { r with events := Ev.enable :: Ev.settle :: r.events }

/-- Loop of the test-mode measure-travel command, X branch (lines
574-589): step at TEST_SPEED_DELAY until the limit reads LOW or 100000
steps were issued.  It calls neither enableMotors nor checkEStop, and
writes none of the global state, so the controller record passes through
unchanged. -/
def measureTravelAux (env : Env) : Nat → Nat → List Ev → Nat × List Ev
  | 0, k, evs => (k, evs.reverse)
  | remaining + 1, k, evs =>
    if env.limit k then (k, evs.reverse)
    else measureTravelAux env remaining (k + 1) (Ev.pulse TEST_SPEED_DELAY :: evs)

/-- Measure-travel command of testMode (lines 574-589, X branch; the Y
branch at lines 591-607 is identical up to pin names): returns the step
count, the emitted events, and the unchanged controller state. -/
def measureTravel (env : Env) (c : Ctrl) : Nat × List Ev × Ctrl :=
  let p := measureTravelAux env 100000 0 []
  (p.1, p.2, c)

/-- Primitive invocations recorded by the sequence orchestrator.  The Bool
of moveAxisCall is the level written to the direction pin (LOW = false is
DIR_X_OUT / DIR_Y_UP, lines 78-81). -/
inductive Call
  | enableMotorsCall
  | homeAxisCall (a : Axis)
  | moveAxisCall (a : Axis) (dirHigh : Bool) (steps : Nat)
  | moveToLimitCall (a : Axis)
  | waitForButton
  | emergencyStopCall
deriving DecidableEq

/-- Result of a sequence: the ordered primitive invocations, the final
controller state, and whether execution is parked in emergencyStop. -/
structure SeqRes where
  calls : List Call
  ctrl : Ctrl
  halted : Bool
deriving DecidableEq

/-- performHoming (lines 233-256): enableMotors, home X, then home Y; an
axis returning false escalates with an explicit emergencyStop call (dead
code, since homeAxis only exits false by halting); on success set isHomed
and STATE_READY.  eX and eY are the sensor streams seen by the X and Y
homing moves; fuel bounds each uncapped homing loop. -/
def performHoming (eX eY : Env) (fuel now : Nat) (c : Ctrl) : Option SeqRes :=
  match homeAxis eX (enableMotors now c) fuel with
  | none => none
  | some rX =>
    if rX.halted then
      some ⟨[.enableMotorsCall, .homeAxisCall .X], rX.ctrl, true⟩
    else if rX.success = false then
      some ⟨[.enableMotorsCall, .homeAxisCall .X, .emergencyStopCall],
            emergencyStop rX.ctrl, true⟩
    else
      match homeAxis eY rX.ctrl fuel with
      | none => none
      | some rY =>
        if rY.halted then
          some ⟨[.enableMotorsCall, .homeAxisCall .X, .homeAxisCall .Y], rY.ctrl, true⟩
        else if rY.success = false then
          some ⟨[.enableMotorsCall, .homeAxisCall .X, .homeAxisCall .Y,
                 .emergencyStopCall], emergencyStop rY.ctrl, true⟩
        else
          some ⟨[.enableMotorsCall, .homeAxisCall .X, .homeAxisCall .Y],
                { rY.ctrl with isHomed := true, currentState := .STATE_READY }, false⟩

/-- retractSequence (lines 310-329): move X to its limit, then Y to its
limit; a false return escalates to emergencyStop; on success set
STATE_READY (line 328).  The state variable is not written anywhere else
in the sequence. -/
def retractSequence (eX eY : Env) (now : Nat) (c : Ctrl) : SeqRes :=
  if (moveAxisToLimit .X eX now c).halted then
    ⟨[.moveToLimitCall .X], (moveAxisToLimit .X eX now c).ctrl, true⟩
  else if (moveAxisToLimit .X eX now c).success = false then
    ⟨[.moveToLimitCall .X, .emergencyStopCall],
     emergencyStop (moveAxisToLimit .X eX now c).ctrl, true⟩
  else if (moveAxisToLimit .Y eY now (moveAxisToLimit .X eX now c).ctrl).halted then
    ⟨[.moveToLimitCall .X, .moveToLimitCall .Y],
     (moveAxisToLimit .Y eY now (moveAxisToLimit .X eX now c).ctrl).ctrl, true⟩
  else if (moveAxisToLimit .Y eY now
      (moveAxisToLimit .X eX now c).ctrl).success = false then
    ⟨[.moveToLimitCall .X, .moveToLimitCall .Y, .emergencyStopCall],
     emergencyStop (moveAxisToLimit .Y eY now (moveAxisToLimit .X eX now c).ctrl).ctrl,
     true⟩
  else
    ⟨[.moveToLimitCall .X, .moveToLimitCall .Y],
     { (moveAxisToLimit .Y eY now (moveAxisToLimit .X eX now c).ctrl).ctrl with
       currentState := .STATE_READY }, false⟩

/-- Outcome of waitForButtonPress when it terminates: halted by the E-stop
poll, or a full press-release cycle observed. -/
inductive WaitOut
  | halted
  | pressed
deriving DecidableEq

/-- Initial release wait of waitForButtonPress (line 407): spin while the
button reads pressed.  This loop does not poll the E-stop.  Poll readings
are indexed by t; returns the index after release. -/
def waitReleaseLoop (btn : Nat → Bool) : Nat → Nat → Option Nat
  | 0, _ => none
  | fuel + 1, t => if btn t then waitReleaseLoop btn fuel (t + 1) else some t

/-- Main wait loop of waitForButtonPress (lines 411-423): each iteration
polls checkEStop (halting on assertion), then the button with a debounce
re-read, then waits for release before returning. -/
def waitPressLoop (es btn : Nat → Bool) : Nat → Nat → Option WaitOut
  | 0, _ => none
  | fuel + 1, t =>
    if es t then some .halted
    else if btn t && btn (t + 1) then
      match waitReleaseLoop btn fuel (t + 2) with
      | none => none
      | some _ => some .pressed
    else waitPressLoop es btn fuel (t + 1)

/-- waitForButtonPress (lines 404-424): wait for release, then for a
debounced press, then for release again. -/
def waitForButtonPress (es btn : Nat → Bool) (fuel : Nat) : Option WaitOut :=
  match waitReleaseLoop btn fuel 0 with
  | none => none
  | some t => waitPressLoop es btn fuel (t + 1)

/-- Sensor streams consumed by one full extend / wait / retract cycle:
one Env per motion primitive invocation, plus the button and E-stop
streams of the mid-sequence wait. -/
structure CycleEnv where
  extendY : Env
  extendX : Env
  waitEs : Nat → Bool
  waitBtn : Nat → Bool
  waitFuel : Nat
  retractX : Env
  retractY : Env

/-- The recorded invocation of the full-travel Y-up fixed-count move of
extendSequence (line 298): direction pin at DIR_Y_UP = LOW. -/
def yUpCall : Call := .moveAxisCall .Y false (Y_MAX_TRAVEL_MM * STEPS_PER_MM)

/-- The recorded invocation of the full-travel X-out fixed-count move of
extendSequence (line 302): direction pin at DIR_X_OUT = LOW. -/
def xOutCall : Call := .moveAxisCall .X false (X_MAX_TRAVEL_MM * STEPS_PER_MM)

/-- extendSequence (lines 293-308): fixed-count full-travel move of Y up
(DIR_Y_UP = LOW), then of X out (DIR_X_OUT = LOW), then the blocking
trigger wait, then retractSequence (line 307).  The sequence itself
writes no state variable. -/
def extendSequence (ce : CycleEnv) (now : Nat) (c : Ctrl) : Option SeqRes :=
  if (moveAxis ce.extendY (Y_MAX_TRAVEL_MM * STEPS_PER_MM) now c).halted then
    some ⟨[yUpCall],
      (moveAxis ce.extendY (Y_MAX_TRAVEL_MM * STEPS_PER_MM) now c).ctrl, true⟩
  else if (moveAxis ce.extendX (X_MAX_TRAVEL_MM * STEPS_PER_MM) now
      (moveAxis ce.extendY (Y_MAX_TRAVEL_MM * STEPS_PER_MM) now c).ctrl).halted then
    some ⟨[yUpCall, xOutCall],
      (moveAxis ce.extendX (X_MAX_TRAVEL_MM * STEPS_PER_MM) now
        (moveAxis ce.extendY (Y_MAX_TRAVEL_MM * STEPS_PER_MM) now c).ctrl).ctrl, true⟩
  else
    match waitForButtonPress ce.waitEs ce.waitBtn ce.waitFuel with
    | none => none
    | some .halted =>
      some ⟨[yUpCall, xOutCall, .waitForButton],
        emergencyStop (moveAxis ce.extendX (X_MAX_TRAVEL_MM * STEPS_PER_MM) now
          (moveAxis ce.extendY (Y_MAX_TRAVEL_MM * STEPS_PER_MM) now c).ctrl).ctrl, true⟩
    | some .pressed =>
      some ⟨[yUpCall, xOutCall, .waitForButton] ++
        (retractSequence ce.retractX ce.retractY now
          (moveAxis ce.extendX (X_MAX_TRAVEL_MM * STEPS_PER_MM) now
            (moveAxis ce.extendY (Y_MAX_TRAVEL_MM * STEPS_PER_MM) now c).ctrl).ctrl).calls,
        (retractSequence ce.retractX ce.retractY now
          (moveAxis ce.extendX (X_MAX_TRAVEL_MM * STEPS_PER_MM) now
            (moveAxis ce.extendY (Y_MAX_TRAVEL_MM * STEPS_PER_MM) now c).ctrl).ctrl).ctrl,
        (retractSequence ce.retractX ce.retractY now
          (moveAxis ce.extendX (X_MAX_TRAVEL_MM * STEPS_PER_MM) now
            (moveAxis ce.extendY (Y_MAX_TRAVEL_MM * STEPS_PER_MM) now c).ctrl).ctrl).halted⟩

/-- Sensor streams consumed by one loop() iteration. -/
structure LoopEnv where
  homeX : Env
  homeY : Env
  fuel : Nat
  cycle : CycleEnv

/-- One iteration of loop() (lines 155-213): E-stop first (lines 157-160),
then checkMotorIdle, then the state dispatch.  esNow is the top-of-loop
E-stop reading and btnPressed the debounced trigger press of the READY
branch (lines 179-184).  Returns the controller state after the iteration
and whether execution is parked in emergencyStop; none means an unbounded
inner loop ran out of fuel. -/
def loopStep (le : LoopEnv) (esNow btnPressed : Bool) (now : Nat) (c : Ctrl) :
    Option (Ctrl × Bool) :=
  if esNow then some (emergencyStop c, true)
  else
    match (checkMotorIdle now c).currentState with
    | .STATE_READY =>
      if btnPressed then
        if (checkMotorIdle now c).isHomed = false then
          (performHoming le.homeX le.homeY le.fuel now
            { checkMotorIdle now c with currentState := .STATE_HOMING }).map
            fun r => (r.ctrl, r.halted)
        else
          (extendSequence le.cycle now
            { checkMotorIdle now c with currentState := .STATE_EXTENDING }).map
            fun r => (r.ctrl, r.halted)
      else some (checkMotorIdle now c, false)
    | .STATE_EXTENDING =>
      some ({ checkMotorIdle now c with currentState := .STATE_READY }, false)
    | _ => some (checkMotorIdle now c, false)

/-- setup() (lines 107-153) for the compiled configuration
(TEST_MODE = false, AUTO_HOMING = true): initialise the globals and pins,
then set STATE_HOMING and run performHoming.  The other two branches are
kept as written. -/
def setup (le : LoopEnv) (now : Nat) : Option (Ctrl × Bool) :=
  if TEST_MODE then
    some ({ initialCtrl with currentState := .STATE_TEST_MODE }, false)
  else if AUTO_HOMING then
    (performHoming le.homeX le.homeY le.fuel now
      { initialCtrl with currentState := .STATE_HOMING }).map fun r => (r.ctrl, r.halted)
  else
    some ({ initialCtrl with currentState := .STATE_READY, isHomed := false }, false)

/-- Environment with both inputs released at every poll. -/
def envQuiet : Env := ⟨fun _ => false, fun _ => false⟩

/-- Environment with the limit switch asserted at every poll. -/
def envLimitNow : Env := ⟨fun _ => true, fun _ => false⟩

/-- Environment with the E-stop asserted at every poll. -/
def envEStopNow : Env := ⟨fun _ => false, fun _ => true⟩

/-- Environment whose limit switch first asserts at the poll after 4128
steps, exactly when the Y-axis safety cap is reached. -/
def capHitEnvY : Env := ⟨fun k => decide (k = 4128), fun _ => false⟩

/-- Environment whose limit switch first asserts at the poll after 7777
steps, one step past the X-axis safety cap. -/
def lateLimitEnv : Env := ⟨fun k => decide (k = 7777), fun _ => false⟩

/-- Environment whose limit switch first asserts at the poll after 2
steps. -/
def hitAt2Env : Env := ⟨fun k => decide (k = 2), fun _ => false⟩

/-- Environment whose E-stop first asserts at the poll after 1 step. -/
def estopAt1Env : Env := ⟨fun _ => false, fun j => decide (j = 1)⟩

/-- A homed controller sitting in READY with the drivers idle-disabled. -/
def readyIdleCtrl : Ctrl :=
  { currentState := .STATE_READY
    isHomed := true
    motorsEnabled := false
    xEnableHigh := true
    yEnableHigh := true
    lastMotorActivity := 0 }

/-- A homed controller mid-cycle in EXTENDING with the drivers enabled. -/
def extendingCtrl : Ctrl :=
  { currentState := .STATE_EXTENDING
    isHomed := true
    motorsEnabled := true
    xEnableHigh := false
    yEnableHigh := false
    lastMotorActivity := 0 }

/-! Arithmetic facts about the acceleration profile. -/

/-- The ramp never exceeds the start delay. -/
theorem rampDelay_le_start (target i : Nat) : rampDelay target i ≤ START_SPEED_DELAY :=
  Nat.sub_le _ _

/-- The ramp-up delay is non-increasing in the step index. -/
theorem rampDelay_anti (target : Nat) {i j : Nat} (h : i ≤ j) :
    rampDelay target j ≤ rampDelay target i := by
  have hm : (START_SPEED_DELAY - target) * i ≤ (START_SPEED_DELAY - target) * j :=
    Nat.mul_le_mul_left _ h
  have := Nat.div_le_div_right (c := ACCEL_STEPS) hm
  unfold rampDelay
  omega

/-- Within the ramp the delay never drops below the target delay. -/
theorem target_le_rampDelay {target : Nat} (ht : target ≤ START_SPEED_DELAY)
    {i : Nat} (hi : i ≤ ACCEL_STEPS) : target ≤ rampDelay target i := by
  have hm : (START_SPEED_DELAY - target) * i ≤ (START_SPEED_DELAY - target) * ACCEL_STEPS :=
    Nat.mul_le_mul_left _ hi
  have h1 : (START_SPEED_DELAY - target) * i / ACCEL_STEPS ≤ START_SPEED_DELAY - target := by
    have := Nat.div_le_div_right (c := ACCEL_STEPS) hm
    simpa [Nat.mul_div_cancel _ (show 0 < ACCEL_STEPS by decide)] using this
  unfold rampDelay
  omega

/-- The ramp starts exactly at the start delay. -/
theorem rampDelay_zero (target : Nat) : rampDelay target 0 = START_SPEED_DELAY := by
  simp [rampDelay]

/-! Characterisation of the moveAxisToLimit loop.  Each lemma is by
induction on the remaining iteration budget. -/

/-- The loop never rewinds the step counter. -/
theorem mtl_steps_ge (env : Env) (now : Nat) (c : Ctrl) :
    ∀ r k evs, k ≤ (moveToLimitAux env now c r k evs).steps := by
  intro r
  induction r with
  | zero => intro k evs; simp [moveToLimitAux]
  | succ r ih =>
    intro k evs
    by_cases hl : env.limit k = true
    · simp [moveToLimitAux, hl]
    · by_cases he : env.estop k = true
      · simp [moveToLimitAux, hl, he]
      · have := ih (k + 1) (Ev.pulse (limitSeekDelay NORMAL_SPEED_DELAY k) :: evs)
        simp only [moveToLimitAux, hl, he, if_false, Bool.false_eq_true]
        omega

/-- The loop issues at most the remaining iteration budget. -/
theorem mtl_steps_le (env : Env) (now : Nat) (c : Ctrl) :
    ∀ r k evs, (moveToLimitAux env now c r k evs).steps ≤ k + r := by
  intro r
  induction r with
  | zero => intro k evs; simp [moveToLimitAux]
  | succ r ih =>
    intro k evs
    by_cases hl : env.limit k = true
    · simp [moveToLimitAux, hl]
    · by_cases he : env.estop k = true
      · simp [moveToLimitAux, hl, he]
      · have := ih (k + 1) (Ev.pulse (limitSeekDelay NORMAL_SPEED_DELAY k) :: evs)
        simp only [moveToLimitAux, hl, he, if_false, Bool.false_eq_true]
        omega

/-- The emitted events are exactly one pulse per issued step with the
ramp-up / cruise delay of its index. -/
theorem mtl_events (env : Env) (now : Nat) (c : Ctrl) :
    ∀ r k evs, (moveToLimitAux env now c r k evs).events =
      evs.reverse ++ (List.range' k ((moveToLimitAux env now c r k evs).steps - k)).map
        (fun j => Ev.pulse (limitSeekDelay NORMAL_SPEED_DELAY j)) := by
  intro r
  induction r with
  | zero => intro k evs; simp [moveToLimitAux]
  | succ r ih =>
    intro k evs
    by_cases hl : env.limit k = true
    · simp [moveToLimitAux, hl]
    · by_cases he : env.estop k = true
      · simp [moveToLimitAux, hl, he]
      · have hge := mtl_steps_ge env now c r (k + 1)
          (Ev.pulse (limitSeekDelay NORMAL_SPEED_DELAY k) :: evs)
        have H := ih (k + 1) (Ev.pulse (limitSeekDelay NORMAL_SPEED_DELAY k) :: evs)
        simp only [moveToLimitAux, hl, he, if_false, Bool.false_eq_true] at H ⊢
        rw [H]
        have hsub : (moveToLimitAux env now c r (k + 1)
            (Ev.pulse (limitSeekDelay NORMAL_SPEED_DELAY k) :: evs)).steps - k =
            ((moveToLimitAux env now c r (k + 1)
              (Ev.pulse (limitSeekDelay NORMAL_SPEED_DELAY k) :: evs)).steps - (k + 1)) + 1 := by
          omega
        rw [hsub, List.range'_succ]
        simp

/-- On a halted exit: the E-stop fired at the final poll, the limit had
not asserted, the budget was not exhausted, and emergencyStop ran. -/
theorem mtl_halted (env : Env) (now : Nat) (c : Ctrl) :
    ∀ r k evs, (moveToLimitAux env now c r k evs).halted = true →
      (moveToLimitAux env now c r k evs).ctrl = emergencyStop c ∧
      (moveToLimitAux env now c r k evs).success = false ∧
      env.estop (moveToLimitAux env now c r k evs).steps = true ∧
      env.limit (moveToLimitAux env now c r k evs).steps = false ∧
      (moveToLimitAux env now c r k evs).steps < k + r := by
  intro r
  induction r with
  | zero => intro k evs; simp [moveToLimitAux]
  | succ r ih =>
    intro k evs
    by_cases hl : env.limit k = true
    · simp [moveToLimitAux, hl]
    · by_cases he : env.estop k = true
      · simp only [moveToLimitAux, hl, he, Bool.false_eq_true, if_false, if_true]
        intro _
        refine ⟨?_, ?_, ?_, ?_, ?_⟩ <;>
          first
            | rfl
            | trivial
            | exact he
            | (simpa using hl)
            | omega
      · have H := ih (k + 1) (Ev.pulse (limitSeekDelay NORMAL_SPEED_DELAY k) :: evs)
        simp only [moveToLimitAux, hl, he, if_false, Bool.false_eq_true] at H ⊢
        intro hh
        obtain ⟨h1, h2, h3, h4, h5⟩ := H hh
        exact ⟨h1, h2, h3, h4, by omega⟩

/-- On a returning exit: success holds exactly when the loop stopped
before the cap with the limit asserted at the exit poll. -/
theorem mtl_success_iff (env : Env) (now : Nat) (c : Ctrl) :
    ∀ r k evs, (moveToLimitAux env now c r k evs).halted = false →
      ((moveToLimitAux env now c r k evs).success = true ↔
        (moveToLimitAux env now c r k evs).steps < k + r ∧
        env.limit (moveToLimitAux env now c r k evs).steps = true) := by
  intro r
  induction r with
  | zero => intro k evs _; simp [moveToLimitAux]
  | succ r ih =>
    intro k evs
    by_cases hl : env.limit k = true
    · simp [moveToLimitAux, hl]
    · by_cases he : env.estop k = true
      · simp [moveToLimitAux, hl, he]
      · have H := ih (k + 1) (Ev.pulse (limitSeekDelay NORMAL_SPEED_DELAY k) :: evs)
        simp only [moveToLimitAux, hl, he, if_false, Bool.false_eq_true] at H ⊢
        intro hh
        rw [H hh]
        have harith : k + 1 + r = k + (r + 1) := by omega
        rw [harith]

/-- A successful return records the motor activity timestamp. -/
theorem mtl_success_ctrl (env : Env) (now : Nat) (c : Ctrl) :
    ∀ r k evs, (moveToLimitAux env now c r k evs).halted = false →
      (moveToLimitAux env now c r k evs).success = true →
      (moveToLimitAux env now c r k evs).ctrl = { c with lastMotorActivity := now } := by
  intro r
  induction r with
  | zero => intro k evs _ h; simp [moveToLimitAux] at h
  | succ r ih =>
    intro k evs
    by_cases hl : env.limit k = true
    · simp [moveToLimitAux, hl]
    · by_cases he : env.estop k = true
      · simp [moveToLimitAux, hl, he]
      · have H := ih (k + 1) (Ev.pulse (limitSeekDelay NORMAL_SPEED_DELAY k) :: evs)
        simp only [moveToLimitAux, hl, he, if_false, Bool.false_eq_true] at H ⊢
        exact H

/-- A failing return leaves the controller untouched and means the budget
was exhausted. -/
theorem mtl_fail (env : Env) (now : Nat) (c : Ctrl) :
    ∀ r k evs, (moveToLimitAux env now c r k evs).halted = false →
      (moveToLimitAux env now c r k evs).success = false →
      (moveToLimitAux env now c r k evs).ctrl = c ∧
      (moveToLimitAux env now c r k evs).steps = k + r := by
  intro r
  induction r with
  | zero => intro k evs _ _; simp [moveToLimitAux]
  | succ r ih =>
    intro k evs
    by_cases hl : env.limit k = true
    · simp [moveToLimitAux, hl]
    · by_cases he : env.estop k = true
      · simp [moveToLimitAux, hl, he]
      · have H := ih (k + 1) (Ev.pulse (limitSeekDelay NORMAL_SPEED_DELAY k) :: evs)
        simp only [moveToLimitAux, hl, he, if_false, Bool.false_eq_true] at H ⊢
        intro hh hs
        obtain ⟨h1, h2⟩ := H hh hs
        exact ⟨h1, by omega⟩

/-- Every poll taken strictly before the exit saw neither the limit nor
the E-stop asserted. -/
theorem mtl_clean (env : Env) (now : Nat) (c : Ctrl) :
    ∀ r k evs j, k ≤ j → j < (moveToLimitAux env now c r k evs).steps →
      env.limit j = false ∧ env.estop j = false := by
  intro r
  induction r with
  | zero => intro k evs j h1 h2; simp [moveToLimitAux] at h2; omega
  | succ r ih =>
    intro k evs j h1 h2
    by_cases hl : env.limit k = true
    · simp [moveToLimitAux, hl] at h2; omega
    · by_cases he : env.estop k = true
      · simp [moveToLimitAux, hl, he] at h2; omega
      · simp only [moveToLimitAux, hl, he, if_false, Bool.false_eq_true] at h2
        rcases Nat.eq_or_lt_of_le h1 with heq | hlt
        · subst heq
          exact ⟨by simpa using hl, by simpa using he⟩
        · exact ih (k + 1) (Ev.pulse (limitSeekDelay NORMAL_SPEED_DELAY k) :: evs) j hlt h2

/-! Characterisation of the homeAxis loop. -/

/-- Full characterisation of a terminating run of the homeAxis loop: the
step count is bracketed by the start index and the fuel, the events are
one ramped pulse per step, a halted exit ran emergencyStop on an E-stop
reading, a returning exit is always successful with the limit asserted
and the controller untouched, and every earlier poll saw nothing. -/
theorem ha_spec (env : Env) (c : Ctrl) :
    ∀ fuel k evs res, homeAxisAux env c fuel k evs = some res →
      k ≤ res.steps ∧ res.steps < k + fuel ∧
      res.events = evs.reverse ++ (List.range' k (res.steps - k)).map
        (fun j => Ev.pulse (limitSeekDelay HOMING_SPEED_DELAY j)) ∧
      (res.halted = true → res.ctrl = emergencyStop c ∧ res.success = false ∧
        env.estop res.steps = true ∧ env.limit res.steps = false) ∧
      (res.halted = false → res.success = true ∧ res.ctrl = c ∧
        env.limit res.steps = true) ∧
      (∀ j, k ≤ j → j < res.steps → env.limit j = false ∧ env.estop j = false) := by
  intro fuel
  induction fuel with
  | zero => intro k evs res h; simp [homeAxisAux] at h
  | succ fuel ih =>
    intro k evs res h
    by_cases hl : env.limit k = true
    · simp only [homeAxisAux, hl, if_true, Option.some.injEq] at h
      subst h
      refine ⟨le_rfl, show k < k + (fuel + 1) by omega, by simp, by simp,
        fun _ => ⟨rfl, rfl, hl⟩, ?_⟩
      intro j hj1 hj2
      simp at hj2
      omega
    · by_cases he : env.estop k = true
      · simp only [homeAxisAux, hl, he, Bool.false_eq_true, if_false, if_true,
          Option.some.injEq] at h
        subst h
        refine ⟨le_rfl, show k < k + (fuel + 1) by omega, by simp,
          fun _ => ⟨rfl, rfl, he, by simpa using hl⟩, by simp, ?_⟩
        intro j hj1 hj2
        simp at hj2
        omega
      · simp only [homeAxisAux, hl, he, Bool.false_eq_true, if_false] at h
        obtain ⟨h1, h2, h3, h4, h5, h6⟩ :=
          ih (k + 1) (Ev.pulse (limitSeekDelay HOMING_SPEED_DELAY k) :: evs) res h
        refine ⟨by omega, by omega, ?_, h4, h5, ?_⟩
        · rw [h3]
          have hsub : res.steps - k = (res.steps - (k + 1)) + 1 := by omega
          rw [hsub, List.range'_succ]
          simp
        · intro j hj1 hj2
          rcases Nat.eq_or_lt_of_le hj1 with heq | hlt
          · subst heq
            exact ⟨by simpa using hl, by simpa using he⟩
          · exact h6 j hlt hj2

/-- A terminating homeAxis run with the limit first asserting at poll m:
the loop returns success after exactly m steps, regardless of how m
compares to any travel bound, provided the fuel covers it. -/
theorem ha_run (env : Env) (c : Ctrl) :
    ∀ fuel k evs m, k ≤ m → m < k + fuel →
      (∀ j, k ≤ j → j < m → env.limit j = false ∧ env.estop j = false) →
      env.limit m = true →
      homeAxisAux env c fuel k evs = some
        { halted := false, success := true, steps := m,
          events := evs.reverse ++ (List.range' k (m - k)).map
            (fun j => Ev.pulse (limitSeekDelay HOMING_SPEED_DELAY j)),
          ctrl := c } := by
  intro fuel
  induction fuel with
  | zero => intro k evs m h1 h2 _ _; omega
  | succ fuel ih =>
    intro k evs m h1 h2 hclean hm
    rcases Nat.eq_or_lt_of_le h1 with rfl | hlt
    · simp [homeAxisAux, hm]
    · have hlk : env.limit k = false := (hclean k le_rfl hlt).1
      have hek : env.estop k = false := (hclean k le_rfl hlt).2
      rw [show homeAxisAux env c (fuel + 1) k evs =
          homeAxisAux env c fuel (k + 1)
            (Ev.pulse (limitSeekDelay HOMING_SPEED_DELAY k) :: evs) from by
        simp [homeAxisAux, hlk, hek]]
      rw [ih (k + 1) (Ev.pulse (limitSeekDelay HOMING_SPEED_DELAY k) :: evs) m hlt
        (by omega) (fun j hj1 hj2 => hclean j (by omega) hj2) hm]
      have hsub : m - k = (m - (k + 1)) + 1 := by omega
      rw [hsub, List.range'_succ]
      simp

/-- A homeAxis run with the E-stop first asserting at poll m while the
limit stays released: the loop halts in emergencyStop after exactly m
steps. -/
theorem ha_estop_run (env : Env) (c : Ctrl) :
    ∀ fuel k evs m, k ≤ m → m < k + fuel →
      (∀ j, k ≤ j → j ≤ m → env.limit j = false) →
      (∀ j, k ≤ j → j < m → env.estop j = false) →
      env.estop m = true →
      homeAxisAux env c fuel k evs = some
        { halted := true, success := false, steps := m,
          events := evs.reverse ++ (List.range' k (m - k)).map
            (fun j => Ev.pulse (limitSeekDelay HOMING_SPEED_DELAY j)),
          ctrl := emergencyStop c } := by
  intro fuel
  induction fuel with
  | zero => intro k evs m h1 h2 _ _ _; omega
  | succ fuel ih =>
    intro k evs m h1 h2 hlim hes hm
    rcases Nat.eq_or_lt_of_le h1 with rfl | hlt
    · simp [homeAxisAux, hlim k le_rfl le_rfl, hm]
    · have hlk : env.limit k = false := hlim k le_rfl (by omega)
      have hek : env.estop k = false := hes k le_rfl hlt
      rw [show homeAxisAux env c (fuel + 1) k evs =
          homeAxisAux env c fuel (k + 1)
            (Ev.pulse (limitSeekDelay HOMING_SPEED_DELAY k) :: evs) from by
        simp [homeAxisAux, hlk, hek]]
      rw [ih (k + 1) (Ev.pulse (limitSeekDelay HOMING_SPEED_DELAY k) :: evs) m hlt
        (by omega) (fun j hj1 hj2 => hlim j (by omega) hj2)
        (fun j hj1 hj2 => hes j (by omega) hj2) hm]
      have hsub : m - k = (m - (k + 1)) + 1 := by omega
      rw [hsub, List.range'_succ]
      simp

/-! Characterisation of the moveAxis loop. -/

/-- The moveAxis loop never rewinds the step counter. -/
theorem ma_steps_ge (env : Env) (numSteps now : Nat) (c : Ctrl) :
    ∀ r k evs, k ≤ (moveAxisAux env numSteps now c r k evs).steps := by
  intro r
  induction r with
  | zero => intro k evs; simp [moveAxisAux]
  | succ r ih =>
    intro k evs
    by_cases he : env.estop k = true
    · simp [moveAxisAux, he]
    · have := ih (k + 1) (Ev.pulse (doStepsDelay numSteps NORMAL_SPEED_DELAY k) :: evs)
      simp only [moveAxisAux, he, Bool.false_eq_true, if_false]
      omega

/-- Full characterisation of the moveAxis loop: events are one pulse per
step with the trapezoidal delay, a halted exit ran emergencyStop on an
E-stop reading taken before the budget was exhausted, a returning exit
completed all remaining steps and recorded activity, and every earlier
E-stop poll was clean. -/
theorem ma_spec (env : Env) (numSteps now : Nat) (c : Ctrl) :
    ∀ r k evs,
      (moveAxisAux env numSteps now c r k evs).steps ≤ k + r ∧
      (moveAxisAux env numSteps now c r k evs).events =
        evs.reverse ++ (List.range' k ((moveAxisAux env numSteps now c r k evs).steps - k)).map
          (fun j => Ev.pulse (doStepsDelay numSteps NORMAL_SPEED_DELAY j)) ∧
      ((moveAxisAux env numSteps now c r k evs).halted = true →
        (moveAxisAux env numSteps now c r k evs).ctrl = emergencyStop c ∧
        (moveAxisAux env numSteps now c r k evs).success = false ∧
        env.estop (moveAxisAux env numSteps now c r k evs).steps = true ∧
        (moveAxisAux env numSteps now c r k evs).steps < k + r) ∧
      ((moveAxisAux env numSteps now c r k evs).halted = false →
        (moveAxisAux env numSteps now c r k evs).steps = k + r ∧
        (moveAxisAux env numSteps now c r k evs).success = true ∧
        (moveAxisAux env numSteps now c r k evs).ctrl =
          { c with lastMotorActivity := now }) ∧
      (∀ j, k ≤ j → j < (moveAxisAux env numSteps now c r k evs).steps →
        env.estop j = false) := by
  intro r
  induction r with
  | zero =>
    intro k evs
    refine ⟨by simp [moveAxisAux], by simp [moveAxisAux], by simp [moveAxisAux],
      by simp [moveAxisAux], ?_⟩
    intro j hj1 hj2
    simp [moveAxisAux] at hj2
    omega
  | succ r ih =>
    intro k evs
    by_cases he : env.estop k = true
    · refine ⟨by simp [moveAxisAux, he], by simp [moveAxisAux, he], ?_, ?_, ?_⟩
      · simp only [moveAxisAux, he, if_true]
        intro _
        refine ⟨?_, ?_, ?_, ?_⟩ <;>
          first
            | rfl
            | trivial
            | exact he
            | exact (show k < k + (r + 1) by omega)
      · simp [moveAxisAux, he]
      · intro j hj1 hj2
        simp [moveAxisAux, he] at hj2
        omega
    · have hge := ma_steps_ge env numSteps now c r (k + 1)
        (Ev.pulse (doStepsDelay numSteps NORMAL_SPEED_DELAY k) :: evs)
      obtain ⟨h1, h2, h3, h4, h5⟩ :=
        ih (k + 1) (Ev.pulse (doStepsDelay numSteps NORMAL_SPEED_DELAY k) :: evs)
      simp only [moveAxisAux, he, Bool.false_eq_true, if_false] at h1 h2 h3 h4 h5 ⊢
      refine ⟨by omega, ?_, ?_, ?_, ?_⟩
      · rw [h2]
        have hsub : (moveAxisAux env numSteps now c r (k + 1)
            (Ev.pulse (doStepsDelay numSteps NORMAL_SPEED_DELAY k) :: evs)).steps - k =
            ((moveAxisAux env numSteps now c r (k + 1)
              (Ev.pulse (doStepsDelay numSteps NORMAL_SPEED_DELAY k) :: evs)).steps -
                (k + 1)) + 1 := by
          omega
        rw [hsub, List.range'_succ]
        simp
      · intro hh
        obtain ⟨g1, g2, g3, g4⟩ := h3 hh
        exact ⟨g1, g2, g3, by omega⟩
      · intro hh
        obtain ⟨g1, g2, g3⟩ := h4 hh
        exact ⟨by omega, g2, g3⟩
      · intro j hj1 hj2
        rcases Nat.eq_or_lt_of_le hj1 with heq | hlt
        · subst heq
          simpa using he
        · exact h5 j hlt hj2

/-! Characterisation of the doSteps loop: it is total and deterministic,
independent of every sensor input. -/

/-- The doSteps loop always completes all remaining steps, emitting one
trapezoidal pulse per step, whatever the inputs read. -/
theorem ds_run (numSteps target now : Nat) (c : Ctrl) :
    ∀ r k evs, doStepsAux numSteps target now c r k evs =
      { halted := false, success := true, steps := k + r,
        events := evs.reverse ++ (List.range' k r).map
          (fun j => Ev.pulse (doStepsDelay numSteps target j)),
        ctrl := { c with lastMotorActivity := now } } := by
  intro r
  induction r with
  | zero => intro k evs; simp [doStepsAux]
  | succ r ih =>
    intro k evs
    have H := ih (k + 1) (Ev.pulse (doStepsDelay numSteps target k) :: evs)
    simp only [doStepsAux]
    rw [H]
    simp [List.range'_succ]
    omega

/-! Facts about pulse extraction from event lists. -/

/-- Pulse extraction of a mapped pulse list recovers the delays. -/
theorem pulsesOf_map (f : Nat → Nat) (l : List Nat) :
    pulsesOf (l.map fun j => Ev.pulse (f j)) = l.map f := by
  induction l with
  | nil => rfl
  | cons a l ih => simp only [List.map_cons, pulsesOf, List.filterMap_cons] at ih ⊢; simp [ih]

/-- Pulse extraction ignores the enable and settle events. -/
theorem pulsesOf_enable_settle (evs : List Ev) :
    pulsesOf (Ev.enable :: Ev.settle :: evs) = pulsesOf evs := rfl

/-! Lemmas transporting the loop characterisations through the
moveAxisToLimit wrapper. -/

/-- Step count of the wrapper equals that of the loop. -/
theorem mAL_steps (a : Axis) (env : Env) (now : Nat) (c : Ctrl) :
    (moveAxisToLimit a env now c).steps =
      (moveToLimitAux env now (enableMotors now c) (axisCapSteps a) 0 []).steps := rfl

/-- Halt flag of the wrapper equals that of the loop. -/
theorem mAL_halted (a : Axis) (env : Env) (now : Nat) (c : Ctrl) :
    (moveAxisToLimit a env now c).halted =
      (moveToLimitAux env now (enableMotors now c) (axisCapSteps a) 0 []).halted := rfl

/-- Return value of the wrapper equals that of the loop. -/
theorem mAL_success (a : Axis) (env : Env) (now : Nat) (c : Ctrl) :
    (moveAxisToLimit a env now c).success =
      (moveToLimitAux env now (enableMotors now c) (axisCapSteps a) 0 []).success := rfl

/-- Final controller state of the wrapper equals that of the loop. -/
theorem mAL_ctrl (a : Axis) (env : Env) (now : Nat) (c : Ctrl) :
    (moveAxisToLimit a env now c).ctrl =
      (moveToLimitAux env now (enableMotors now c) (axisCapSteps a) 0 []).ctrl := rfl

/-- The wrapper prepends the enable and settle events to the loop trace. -/
theorem mAL_events (a : Axis) (env : Env) (now : Nat) (c : Ctrl) :
    (moveAxisToLimit a env now c).events = Ev.enable :: Ev.settle ::
      (moveToLimitAux env now (enableMotors now c) (axisCapSteps a) 0 []).events := rfl

/-- Both axis caps are positive. -/
theorem axisCapSteps_pos (a : Axis) : 0 < axisCapSteps a := by
  cases a <;> decide

/-- A full cap run of moveAxisToLimit: when neither input asserts at any
of the first cap polls, the primitive issues exactly the cap, returns,
and reports failure. -/
theorem mtl_cap_run (a : Axis) (env : Env) (now : Nat) (c : Ctrl)
    (h : ∀ j, j < axisCapSteps a → env.limit j = false ∧ env.estop j = false) :
    (moveAxisToLimit a env now c).halted = false ∧
    (moveAxisToLimit a env now c).success = false ∧
    (moveAxisToLimit a env now c).steps = axisCapSteps a := by
  rw [mAL_halted, mAL_success, mAL_steps]
  have hle := mtl_steps_le env now (enableMotors now c) (axisCapSteps a) 0 []
  have hH : (moveToLimitAux env now (enableMotors now c) (axisCapSteps a) 0 []).halted
      = false := by
    cases hhb : (moveToLimitAux env now (enableMotors now c) (axisCapSteps a) 0 []).halted
    · rfl
    · exfalso
      obtain ⟨_, _, hes, _, hlt⟩ :=
        mtl_halted env now (enableMotors now c) (axisCapSteps a) 0 [] hhb
      have := (h (moveToLimitAux env now (enableMotors now c)
        (axisCapSteps a) 0 []).steps (by omega)).2
      simp [this] at hes
  have hS : (moveToLimitAux env now (enableMotors now c) (axisCapSteps a) 0 []).success
      = false := by
    cases hsb : (moveToLimitAux env now (enableMotors now c) (axisCapSteps a) 0 []).success
    · rfl
    · exfalso
      obtain ⟨hlt, hlim⟩ :=
        (mtl_success_iff env now (enableMotors now c) (axisCapSteps a) 0 [] hH).mp hsb
      have := (h (moveToLimitAux env now (enableMotors now c)
        (axisCapSteps a) 0 []).steps (by omega)).1
      simp [this] at hlim
  obtain ⟨_, hsteps⟩ := mtl_fail env now (enableMotors now c) (axisCapSteps a) 0 [] hH hS
  exact ⟨hH, hS, by omega⟩

/-- A moveAxisToLimit run in which the E-stop first asserts at poll m,
before the limit and before the cap: the primitive halts in emergencyStop
after exactly m steps. -/
theorem mtl_estop_halt (a : Axis) (env : Env) (now : Nat) (c : Ctrl) (m : Nat)
    (hlim : ∀ j, j ≤ m → env.limit j = false)
    (hes : ∀ j, j < m → env.estop j = false)
    (hm : env.estop m = true) (hcap : m < axisCapSteps a) :
    (moveAxisToLimit a env now c).halted = true ∧
    (moveAxisToLimit a env now c).steps = m ∧
    (moveAxisToLimit a env now c).ctrl = emergencyStop (enableMotors now c) := by
  rw [mAL_halted, mAL_steps, mAL_ctrl]
  have hclean := mtl_clean env now (enableMotors now c) (axisCapSteps a) 0 []
  have hH : (moveToLimitAux env now (enableMotors now c) (axisCapSteps a) 0 []).halted
      = true := by
    cases hhb : (moveToLimitAux env now (enableMotors now c) (axisCapSteps a) 0 []).halted
    · exfalso
      cases hsb : (moveToLimitAux env now (enableMotors now c) (axisCapSteps a) 0 []).success
      · obtain ⟨_, hsteps⟩ :=
          mtl_fail env now (enableMotors now c) (axisCapSteps a) 0 [] hhb hsb
        have := (hclean m (by omega) (by omega)).2
        simp [hm] at this
      · obtain ⟨hlt, hlimS⟩ :=
          (mtl_success_iff env now (enableMotors now c) (axisCapSteps a) 0 [] hhb).mp hsb
        rcases Nat.lt_or_ge m
          (moveToLimitAux env now (enableMotors now c) (axisCapSteps a) 0 []).steps with
          hmlt | hmge
        · have := (hclean m (by omega) hmlt).2
          simp [hm] at this
        · have := hlim _ hmge
          simp [this] at hlimS
    · rfl
  obtain ⟨hctrl, _, hesS, hlimS, _⟩ :=
    mtl_halted env now (enableMotors now c) (axisCapSteps a) 0 [] hH
  have hSm : (moveToLimitAux env now (enableMotors now c) (axisCapSteps a) 0 []).steps
      = m := by
    rcases Nat.lt_trichotomy
      (moveToLimitAux env now (enableMotors now c) (axisCapSteps a) 0 []).steps m with
      hlt | heq | hgt
    · have := hes _ hlt
      simp [this] at hesS
    · exact heq
    · have := (hclean m (by omega) hgt).2
      simp [hm] at this
  exact ⟨hH, hSm, hctrl⟩

/-- Claim C3: moveAxisToLimit steps until the limit reads asserted or the
cap of 1.2 times the axis max travel is reached, never issues more pulses
than the cap, returns success exactly when the limit asserted before the
cap, and returns failure on a full cap run with no limit assertion. -/
theorem claim_C3 (a : Axis) (env : Env) (now : Nat) (c : Ctrl) :
    (moveAxisToLimit a env now c).steps ≤ axisCapSteps a ∧
    (∀ j, j < (moveAxisToLimit a env now c).steps → env.limit j = false) ∧
    ((moveAxisToLimit a env now c).halted = false →
      ((moveAxisToLimit a env now c).success = true ↔
        (moveAxisToLimit a env now c).steps < axisCapSteps a ∧
        env.limit ((moveAxisToLimit a env now c).steps) = true)) ∧
    ((∀ j, j < axisCapSteps a → env.limit j = false ∧ env.estop j = false) →
      (moveAxisToLimit a env now c).halted = false ∧
      (moveAxisToLimit a env now c).success = false ∧
      (moveAxisToLimit a env now c).steps = axisCapSteps a) := by
  refine ⟨?_, ?_, ?_, mtl_cap_run a env now c⟩
  · have := mtl_steps_le env now (enableMotors now c) (axisCapSteps a) 0 []
    rw [mAL_steps]
    omega
  · intro j hj
    rw [mAL_steps] at hj
    exact (mtl_clean env now (enableMotors now c) (axisCapSteps a) 0 [] j (by omega) hj).1
  · rw [mAL_halted, mAL_success, mAL_steps]
    intro hh
    have := mtl_success_iff env now (enableMotors now c) (axisCapSteps a) 0 [] hh
    rw [this]
    constructor <;> (rintro ⟨h1, h2⟩; exact ⟨by omega, h2⟩)

/-- Witness for claim C3: with both inputs released throughout, the X
move runs to the full cap and reports failure. -/
theorem claim_C3_witness :
    (moveAxisToLimit Axis.X envQuiet 0 initialCtrl).success = false ∧
    (moveAxisToLimit Axis.X envQuiet 0 initialCtrl).steps = axisCapSteps Axis.X := by
  have h := (claim_C3 Axis.X envQuiet 0 initialCtrl).2.2.2 (fun j _ => ⟨rfl, rfl⟩)
  exact ⟨h.2.1, h.2.2⟩

/-- Claim C6: when the limit switch already reads asserted before any
step, both moveAxisToLimit and homeAxis issue zero step pulses and report
success. -/
theorem claim_C6 (a : Axis) (env : Env) (now fuel : Nat) (c : Ctrl)
    (h0 : env.limit 0 = true) :
    (moveAxisToLimit a env now c).success = true ∧
    (moveAxisToLimit a env now c).steps = 0 ∧
    pulsesOf (moveAxisToLimit a env now c).events = [] ∧
    homeAxis env c fuel = some
      { halted := false, success := true, steps := 0, events := [], ctrl := c } := by
  obtain ⟨r, hr⟩ : ∃ r, axisCapSteps a = r + 1 := by
    have := axisCapSteps_pos a
    exact ⟨axisCapSteps a - 1, by omega⟩
  rw [mAL_success, mAL_steps, mAL_events, hr]
  refine ⟨by simp [moveToLimitAux, h0], by simp [moveToLimitAux, h0],
    by simp [moveToLimitAux, h0, pulsesOf], by simp [homeAxis, h0]⟩

/-- Witness for claim C6: with the limit asserted at the start, the X
move and homing both finish with zero steps. -/
theorem claim_C6_witness :
    (moveAxisToLimit Axis.X envLimitNow 0 initialCtrl).success = true ∧
    (moveAxisToLimit Axis.X envLimitNow 0 initialCtrl).steps = 0 ∧
    pulsesOf (moveAxisToLimit Axis.X envLimitNow 0 initialCtrl).events = [] ∧
    homeAxis envLimitNow initialCtrl 1 = some
      { halted := false, success := true, steps := 0, events := [],
        ctrl := initialCtrl } :=
  claim_C6 Axis.X envLimitNow 0 1 initialCtrl rfl

/-- Claim C7: every pulse of a limit-seeking move carries either the
ramp-up delay of its index (below ACCEL_STEPS) or the constant target
delay; the deceleration ramp of the fixed-count profile never appears. -/
theorem claim_C7 (a : Axis) (env : Env) (now fuel : Nat) (c : Ctrl) :
    pulsesOf (moveAxisToLimit a env now c).events =
      (List.range (moveAxisToLimit a env now c).steps).map
        (limitSeekDelay NORMAL_SPEED_DELAY) ∧
    (∀ res, homeAxis env c fuel = some res →
      pulsesOf res.events =
        (List.range res.steps).map (limitSeekDelay HOMING_SPEED_DELAY)) ∧
    (∀ target k, (k < ACCEL_STEPS → limitSeekDelay target k = rampDelay target k) ∧
      (ACCEL_STEPS ≤ k → limitSeekDelay target k = target)) := by
  refine ⟨?_, ?_, ?_⟩
  · rw [mAL_events, mAL_steps]
    have hev := mtl_events env now (enableMotors now c) (axisCapSteps a) 0 []
    simp only [pulsesOf_enable_settle, hev, List.reverse_nil, List.nil_append,
      Nat.sub_zero, ← List.range_eq_range']
    exact pulsesOf_map _ _
  · intro res hres
    by_cases h0 : env.limit 0 = true
    · simp only [homeAxis, h0, if_true, Option.some.injEq] at hres
      subst hres
      simp [pulsesOf]
    · simp only [homeAxis, h0, Bool.false_eq_true, if_false] at hres
      obtain ⟨_, _, hev, _, _, _⟩ := ha_spec env c fuel 0 [] res hres
      simp only [hev, List.reverse_nil, List.nil_append, Nat.sub_zero,
        ← List.range_eq_range']
      exact pulsesOf_map _ _
  · intro target k
    constructor
    · intro h; simp [limitSeekDelay, h]
    · intro h; simp [limitSeekDelay, Nat.not_lt.mpr h]

/-- Witness for claim C7: a shortened homing run with the limit asserted
immediately has the empty pulse list demanded by the profile. -/
theorem claim_C7_witness :
    pulsesOf (MoveRes.mk false true 0 [] initialCtrl).events =
      (List.range (MoveRes.mk false true 0 [] initialCtrl).steps).map
        (limitSeekDelay HOMING_SPEED_DELAY) :=
  (claim_C7 Axis.X envLimitNow 0 1 initialCtrl).2.1 _ rfl

/-- Claim C9: a moveAxisToLimit run that issues exactly the cap reports
failure regardless of the limit reading at the final poll; success is
reported only with the exit step count strictly below the cap. -/
theorem claim_C9 (a : Axis) (env : Env) (now : Nat) (c : Ctrl) :
    ((moveAxisToLimit a env now c).steps = axisCapSteps a →
      (moveAxisToLimit a env now c).success = false) ∧
    ((moveAxisToLimit a env now c).success = true →
      (moveAxisToLimit a env now c).steps < axisCapSteps a) := by
  have hsucc : (moveAxisToLimit a env now c).success = true →
      (moveAxisToLimit a env now c).steps < axisCapSteps a := by
    intro hs
    rw [mAL_success] at hs
    rw [mAL_steps]
    cases hhb : (moveToLimitAux env now (enableMotors now c) (axisCapSteps a) 0 []).halted
    · have := (mtl_success_iff env now (enableMotors now c) (axisCapSteps a) 0 [] hhb).mp hs
      omega
    · obtain ⟨_, hsf, _, _, _⟩ :=
        mtl_halted env now (enableMotors now c) (axisCapSteps a) 0 [] hhb
      simp [hsf] at hs
  refine ⟨?_, hsucc⟩
  intro hcap
  cases hsb : (moveAxisToLimit a env now c).success
  · rfl
  · have := hsucc hsb
    omega

/-- Witness for claim C9: with the limit first asserting exactly at the
poll after the cap-th step, the Y move still reports failure. -/
theorem claim_C9_witness :
    (moveAxisToLimit Axis.Y capHitEnvY 0 initialCtrl).success = false ∧
    capHitEnvY.limit (axisCapSteps Axis.Y) = true := by
  have hcap : axisCapSteps Axis.Y = 4128 := by decide
  have hrun := mtl_cap_run Axis.Y capHitEnvY 0 initialCtrl ?side
  · exact ⟨(claim_C9 Axis.Y capHitEnvY 0 initialCtrl).1 hrun.2.2, by decide⟩
  case side =>
    intro j hj
    rw [hcap] at hj
    exact ⟨decide_eq_false (by omega), rfl⟩

/-! Lemmas transporting the loop characterisations through the moveAxis
wrapper, and the E-stop halt behaviour of the three polling primitives. -/

/-- Step count of the moveAxis wrapper equals that of the loop. -/
theorem mA_steps (env : Env) (steps now : Nat) (c : Ctrl) :
    (moveAxis env steps now c).steps =
      (moveAxisAux env steps now (enableMotors now c) steps 0 []).steps := rfl

/-- Halt flag of the moveAxis wrapper equals that of the loop. -/
theorem mA_halted (env : Env) (steps now : Nat) (c : Ctrl) :
    (moveAxis env steps now c).halted =
      (moveAxisAux env steps now (enableMotors now c) steps 0 []).halted := rfl

/-- Final controller state of the moveAxis wrapper equals that of the
loop. -/
theorem mA_ctrl (env : Env) (steps now : Nat) (c : Ctrl) :
    (moveAxis env steps now c).ctrl =
      (moveAxisAux env steps now (enableMotors now c) steps 0 []).ctrl := rfl

/-- The moveAxis wrapper prepends the enable and settle events to the
loop trace. -/
theorem mA_events (env : Env) (steps now : Nat) (c : Ctrl) :
    (moveAxis env steps now c).events = Ev.enable :: Ev.settle ::
      (moveAxisAux env steps now (enableMotors now c) steps 0 []).events := rfl

/-- A moveAxis run in which the E-stop first asserts at poll m before the
requested count is complete: the move halts in emergencyStop after
exactly m steps. -/
theorem ma_estop_halt (env : Env) (n now : Nat) (c : Ctrl) (m : Nat)
    (hes : ∀ j, j < m → env.estop j = false) (hm : env.estop m = true) (hn : m < n) :
    (moveAxis env n now c).halted = true ∧
    (moveAxis env n now c).steps = m ∧
    (moveAxis env n now c).ctrl = emergencyStop (enableMotors now c) := by
  rw [mA_halted, mA_steps, mA_ctrl]
  obtain ⟨h1, h2, h3, h4, h5⟩ := ma_spec env n now (enableMotors now c) n 0 []
  have hH : (moveAxisAux env n now (enableMotors now c) n 0 []).halted = true := by
    cases hhb : (moveAxisAux env n now (enableMotors now c) n 0 []).halted
    · exfalso
      obtain ⟨hsteps, _, _⟩ := h4 hhb
      have := h5 m (by omega) (by omega)
      simp [hm] at this
    · rfl
  obtain ⟨hctrl, _, hesS, hlt⟩ := h3 hH
  have hSm : (moveAxisAux env n now (enableMotors now c) n 0 []).steps = m := by
    rcases Nat.lt_trichotomy
      (moveAxisAux env n now (enableMotors now c) n 0 []).steps m with hlt2 | heq | hgt
    · have := hes _ hlt2
      simp [this] at hesS
    · exact heq
    · have := h5 m (by omega) hgt
      simp [hm] at this
  exact ⟨hH, hSm, hctrl⟩

/-- A homeAxis run in which the E-stop first asserts at poll m while the
limit stays released: the homing move halts in emergencyStop after
exactly m steps. -/
theorem homeAxis_estop (env : Env) (c : Ctrl) (fuel m : Nat)
    (hlim : ∀ j, j ≤ m → env.limit j = false)
    (hes : ∀ j, j < m → env.estop j = false)
    (hm : env.estop m = true) (hfuel : m < fuel) :
    homeAxis env c fuel = some
      { halted := true, success := false, steps := m,
        events := (List.range' 0 m).map
          (fun j => Ev.pulse (limitSeekDelay HOMING_SPEED_DELAY j)),
        ctrl := emergencyStop c } := by
  have h0 : ¬ env.limit 0 = true := by simp [hlim 0 (Nat.zero_le m)]
  have hrun := ha_estop_run env c fuel 0 [] m (Nat.zero_le m) (by omega)
    (fun j hj1 hj2 => hlim j hj2) (fun j hj1 hj2 => hes j hj2) hm
  simp only [homeAxis, h0, Bool.false_eq_true, if_false]
  simpa using hrun

/-- Claim C1 (amended): the fixed-count move (moveAxis), move-to-limit
and homing primitives poll the E-stop before every step; on its first
asserted reading they stop with no further pulse, de-assert both motor
enable outputs, force the state to STOPPED and clear the homed flag.
The test-mode stepping primitive doSteps contains no E-stop poll and runs
to completion with the state untouched (see the counterexample). -/
theorem claim_C1_amended :
    (∀ (a : Axis) (env : Env) (now : Nat) (c : Ctrl) (m : Nat),
      (∀ j, j ≤ m → env.limit j = false) → (∀ j, j < m → env.estop j = false) →
      env.estop m = true → m < axisCapSteps a →
      (moveAxisToLimit a env now c).halted = true ∧
      (moveAxisToLimit a env now c).steps = m ∧
      (moveAxisToLimit a env now c).ctrl.xEnableHigh = true ∧
      (moveAxisToLimit a env now c).ctrl.yEnableHigh = true ∧
      (moveAxisToLimit a env now c).ctrl.currentState = SystemState.STATE_STOPPED ∧
      (moveAxisToLimit a env now c).ctrl.isHomed = false) ∧
    (∀ (env : Env) (n now : Nat) (c : Ctrl) (m : Nat),
      (∀ j, j < m → env.estop j = false) → env.estop m = true → m < n →
      (moveAxis env n now c).halted = true ∧
      (moveAxis env n now c).steps = m ∧
      (moveAxis env n now c).ctrl.xEnableHigh = true ∧
      (moveAxis env n now c).ctrl.yEnableHigh = true ∧
      (moveAxis env n now c).ctrl.currentState = SystemState.STATE_STOPPED ∧
      (moveAxis env n now c).ctrl.isHomed = false) ∧
    (∀ (env : Env) (c : Ctrl) (fuel m : Nat),
      (∀ j, j ≤ m → env.limit j = false) → (∀ j, j < m → env.estop j = false) →
      env.estop m = true → m < fuel →
      ∃ res, homeAxis env c fuel = some res ∧ res.halted = true ∧ res.steps = m ∧
        res.ctrl.xEnableHigh = true ∧ res.ctrl.yEnableHigh = true ∧
        res.ctrl.currentState = SystemState.STATE_STOPPED ∧
        res.ctrl.isHomed = false) := by
  refine ⟨?_, ?_, ?_⟩
  · intro a env now c m hlim hes hm hcap
    obtain ⟨h1, h2, h3⟩ := mtl_estop_halt a env now c m hlim hes hm hcap
    rw [h3]
    exact ⟨h1, h2, rfl, rfl, rfl, rfl⟩
  · intro env n now c m hes hm hn
    obtain ⟨h1, h2, h3⟩ := ma_estop_halt env n now c m hes hm hn
    rw [h3]
    exact ⟨h1, h2, rfl, rfl, rfl, rfl⟩
  · intro env c fuel m hlim hes hm hfuel
    refine ⟨_, homeAxis_estop env c fuel m hlim hes hm hfuel, rfl, rfl, rfl, rfl, rfl, rfl⟩

/-- Witness for claim C1 (amended): the E-stop asserting at the poll
after one step halts the X move-to-limit there with the state forced to
STOPPED. -/
theorem claim_C1_witness :
    (moveAxisToLimit Axis.X estopAt1Env 0 readyIdleCtrl).halted = true ∧
    (moveAxisToLimit Axis.X estopAt1Env 0 readyIdleCtrl).steps = 1 ∧
    (moveAxisToLimit Axis.X estopAt1Env 0 readyIdleCtrl).ctrl.currentState =
      SystemState.STATE_STOPPED ∧
    (moveAxisToLimit Axis.X estopAt1Env 0 readyIdleCtrl).ctrl.isHomed = false := by
  have h := claim_C1_amended.1 Axis.X estopAt1Env 0 readyIdleCtrl 1
    (fun j _ => rfl) (fun j hj => decide_eq_false (by omega)) (by decide) (by decide)
  exact ⟨h.1, h.2.1, h.2.2.2.2.1, h.2.2.2.2.2⟩

/-- Claim C1 counterexample: with the E-stop input asserted at every poll
from the start, doSteps still issues all five requested pulses, returns
normally and leaves the state READY with the homed flag set, because its
loop never reads the E-stop input (lines 461-481 contain no checkEStop). -/
theorem claim_C1_counterexample :
    (doSteps envEStopNow 5 1500 0 readyIdleCtrl).halted = false ∧
    (doSteps envEStopNow 5 1500 0 readyIdleCtrl).steps = 5 ∧
    (doSteps envEStopNow 5 1500 0 readyIdleCtrl).ctrl.currentState =
      SystemState.STATE_READY ∧
    (doSteps envEStopNow 5 1500 0 readyIdleCtrl).ctrl.isHomed = true := by
  decide

/-- Claim C2 (amended): the per-axis homing move applies no step cap at
all: whenever the limit first asserts at the poll after N steps (and the
E-stop stays released), homeAxis issues exactly N ramped pulses and
reports success, for every N, including N beyond 1.2 times the axis max
travel; it stops early only through the E-stop poll, which halts the
system rather than returning failure, so the failure-escalation branch of
performHoming is unreachable. -/
theorem claim_C2_amended (env : Env) (c : Ctrl) (fuel N : Nat)
    (hclean : ∀ j, j < N → env.limit j = false ∧ env.estop j = false)
    (hN : env.limit N = true) (hfuel : N < fuel) :
    homeAxis env c fuel = some
      { halted := false, success := true, steps := N,
        events := (List.range' 0 N).map
          (fun j => Ev.pulse (limitSeekDelay HOMING_SPEED_DELAY j)),
        ctrl := c } := by
  rcases Nat.eq_zero_or_pos N with rfl | hpos
  · simp [homeAxis, hN]
  · have h0 : ¬ env.limit 0 = true := by simp [(hclean 0 hpos).1]
    have hrun := ha_run env c fuel 0 [] N (Nat.zero_le N) (by omega)
      (fun j hj1 hj2 => hclean j hj2) hN
    simp only [homeAxis, h0, Bool.false_eq_true, if_false]
    simpa using hrun

/-- Witness for claim C2 (amended): a homing run whose limit first
asserts after two steps returns success with exactly two pulses. -/
theorem claim_C2_witness :
    homeAxis hitAt2Env initialCtrl 3 = some
      { halted := false, success := true, steps := 2,
        events := (List.range' 0 2).map
          (fun j => Ev.pulse (limitSeekDelay HOMING_SPEED_DELAY j)),
        ctrl := initialCtrl } :=
  claim_C2_amended hitAt2Env initialCtrl 3 2
    (fun j hj => ⟨decide_eq_false (by omega), rfl⟩) (by decide) (by decide)

/-- Claim C2 counterexample: with the limit switch first asserting at the
poll after 7777 steps, one past the X safety cap of 7776, homeAxis keeps
stepping beyond the cap and reports success, so the homing move neither
stays within the cap nor reports failure. -/
theorem claim_C2_counterexample :
    (homeAxis lateLimitEnv initialCtrl 8000).map
      (fun res => (res.success, res.steps)) = some (true, 7777) ∧
    axisCapSteps Axis.X < 7777 := by
  refine ⟨?_, by decide⟩
  have h0 : ¬ lateLimitEnv.limit 0 = true := by decide
  have hrun := ha_run lateLimitEnv initialCtrl 8000 0 [] 7777 (Nat.zero_le _) (by omega)
    (fun j hj1 hj2 => ⟨decide_eq_false (by omega), rfl⟩) (by decide)
  simp only [homeAxis, h0, Bool.false_eq_true, if_false, hrun]
  rfl

/-! Claim C4: the trapezoidal profile of the fixed-count moves. -/

/-- Claim C4 (amended): in a fixed-count move of n steps with target
delay T ≤ START_SPEED_DELAY, the delay applied at step i is the ramp-up
interpolation when i < ACCEL_STEPS (this branch takes priority), the
symmetric interpolation from steps-remaining when i is within ACCEL_STEPS
of the end and past the ramp-up window, and T otherwise; the delay is
monotonically non-increasing over the first min(n / 2, ACCEL_STEPS)
steps, and when n is at least 2 * ACCEL_STEPS it is constant at T over
the middle and monotonically non-decreasing over the last ACCEL_STEPS
steps.  For n below 2 * ACCEL_STEPS the ramp-up branch wins throughout
the overlap, so the tail of the move need not be non-decreasing (see the
counterexample). -/
theorem claim_C4_amended (n T : Nat) (hT : T ≤ START_SPEED_DELAY) :
    (∀ (env : Env) (now : Nat) (c : Ctrl),
      pulsesOf (doSteps env n T now c).events = (List.range n).map (doStepsDelay n T)) ∧
    (∀ i, i < n →
      (i < ACCEL_STEPS → doStepsDelay n T i = rampDelay T i) ∧
      (ACCEL_STEPS ≤ i → n - i < ACCEL_STEPS →
        doStepsDelay n T i = rampDelay T (n - i)) ∧
      (ACCEL_STEPS ≤ i → ACCEL_STEPS ≤ n - i → doStepsDelay n T i = T)) ∧
    (∀ i j, i ≤ j → j < min (n / 2) ACCEL_STEPS →
      doStepsDelay n T j ≤ doStepsDelay n T i) ∧
    (2 * ACCEL_STEPS ≤ n → ∀ i, ACCEL_STEPS ≤ i → i ≤ n - ACCEL_STEPS →
      doStepsDelay n T i = T) ∧
    (2 * ACCEL_STEPS ≤ n → ∀ i j, n - ACCEL_STEPS ≤ i → i ≤ j → j < n →
      doStepsDelay n T i ≤ doStepsDelay n T j) := by
  refine ⟨?_, ?_, ?_, ?_, ?_⟩
  · intro env now c
    rw [show (doSteps env n T now c).events = Ev.enable :: Ev.settle ::
        (doStepsAux n T now (enableMotors now c) n 0 []).events from rfl]
    rw [ds_run]
    simp only [List.reverse_nil, List.nil_append, pulsesOf_enable_settle,
      ← List.range_eq_range']
    exact pulsesOf_map _ _
  · intro i hi
    refine ⟨?_, ?_, ?_⟩
    · intro h
      simp [doStepsDelay, h]
    · intro h1 h2
      rw [doStepsDelay, if_neg (by omega), if_pos (by omega)]
    · intro h1 h2
      rw [doStepsDelay, if_neg (by omega), if_neg (by omega)]
  · intro i j hij hj
    have hjA : j < ACCEL_STEPS := lt_of_lt_of_le hj (min_le_right _ _)
    have hiA : i < ACCEL_STEPS := by omega
    rw [doStepsDelay, if_pos hjA, doStepsDelay, if_pos hiA]
    exact rampDelay_anti T hij
  · intro hn i h1 h2
    rw [doStepsDelay, if_neg (by omega), if_neg (by omega)]
  · intro hn i j h1 h2 h3
    have hiA : ¬ i < ACCEL_STEPS := by omega
    have hjA : ¬ j < ACCEL_STEPS := by omega
    rw [doStepsDelay, if_neg hiA, doStepsDelay, if_neg hjA]
    by_cases hi2 : (n : Int) - (ACCEL_STEPS : Int) < (i : Int)
    · have hj2 : (n : Int) - (ACCEL_STEPS : Int) < (j : Int) := by omega
      rw [if_pos hi2, if_pos hj2]
      exact rampDelay_anti T (by omega)
    · rw [if_neg hi2]
      by_cases hj2 : (n : Int) - (ACCEL_STEPS : Int) < (j : Int)
      · rw [if_pos hj2]
        exact target_le_rampDelay hT (by omega)
      · rw [if_neg hj2]

/-- Witness for claim C4 (amended): in a 600-step move at target 1500,
step 300 sits in the cruise phase at exactly the target delay, and a
2-step move emits the two profile delays verbatim. -/
theorem claim_C4_witness :
    doStepsDelay 600 1500 300 = 1500 ∧
    pulsesOf (doSteps envQuiet 2 1500 0 initialCtrl).events =
      (List.range 2).map (doStepsDelay 2 1500) := by
  have h600 := claim_C4_amended 600 1500 (by decide)
  have h2 := claim_C4_amended 2 1500 (by decide)
  exact ⟨h600.2.2.2.1 (by decide) 300 (by decide) (by decide), h2.1 envQuiet 0 initialCtrl⟩

/-- Claim C4 counterexample: in a 10-step move at target 1500 the
symmetric tail is the last min(10 / 2, ACCEL_STEPS) = 5 steps, indices 5
through 9; there the per-step delay strictly decreases (2963 at step 5
down to 2933 at step 9) because the ramp-up branch takes priority over
the deceleration branch, so the delay is not monotonically non-decreasing
back to the start delay over the symmetric tail as the claim states. -/
theorem claim_C4_counterexample :
    10 - min (10 / 2) ACCEL_STEPS ≤ 5 ∧ (9 : Nat) < 10 ∧
    doStepsDelay 10 1500 9 < doStepsDelay 10 1500 5 := by
  decide

/-! Behaviour of homeAxis as seen by its callers, and the recorded call
shapes of the three sequences. -/

/-- Return behaviour of homeAxis: a halted run parked in emergencyStop,
and a returning run always reports success with the controller
untouched (the C `return false` after checkEStop is dead code). -/
theorem homeAxis_spec (env : Env) (c : Ctrl) (fuel : Nat) (res : MoveRes)
    (h : homeAxis env c fuel = some res) :
    (res.halted = true → res.ctrl = emergencyStop c ∧ res.success = false) ∧
    (res.halted = false → res.success = true ∧ res.ctrl = c) := by
  by_cases h0 : env.limit 0 = true
  · simp only [homeAxis, h0, if_true, Option.some.injEq] at h
    subst h
    exact ⟨by simp, fun _ => ⟨rfl, rfl⟩⟩
  · simp only [homeAxis, h0, Bool.false_eq_true, if_false] at h
    obtain ⟨_, _, _, h4, h5, _⟩ := ha_spec env c fuel 0 [] res h
    exact ⟨fun hh => ⟨(h4 hh).1, (h4 hh).2.1⟩, fun hh => ⟨(h5 hh).1, (h5 hh).2.1⟩⟩

/-- checkMotorIdle touches neither the state variable nor the homed
flag. -/
theorem checkMotorIdle_state (now : Nat) (c : Ctrl) :
    (checkMotorIdle now c).currentState = c.currentState ∧
    (checkMotorIdle now c).isHomed = c.isHomed := by
  unfold checkMotorIdle disableMotors
  split_ifs <;> exact ⟨rfl, rfl⟩

/-- The recorded calls of retractSequence: always X to its limit first,
with Y to its limit afterwards when X succeeded, and at most one closing
emergencyStop call. -/
theorem retract_shapes (eX eY : Env) (now : Nat) (c : Ctrl) :
    (retractSequence eX eY now c).calls = [Call.moveToLimitCall Axis.X] ∨
    (retractSequence eX eY now c).calls =
      [Call.moveToLimitCall Axis.X, Call.emergencyStopCall] ∨
    (retractSequence eX eY now c).calls =
      [Call.moveToLimitCall Axis.X, Call.moveToLimitCall Axis.Y] ∨
    (retractSequence eX eY now c).calls =
      [Call.moveToLimitCall Axis.X, Call.moveToLimitCall Axis.Y,
       Call.emergencyStopCall] := by
  unfold retractSequence
  split_ifs <;> simp

/-- The recorded calls of performHoming: enable the motors, home X, and
home Y only after X. -/
theorem performHoming_shapes (eX eY : Env) (fuel now : Nat) (c : Ctrl) (r : SeqRes)
    (h : performHoming eX eY fuel now c = some r) :
    r.calls = [Call.enableMotorsCall, Call.homeAxisCall Axis.X] ∨
    r.calls = [Call.enableMotorsCall, Call.homeAxisCall Axis.X,
      Call.emergencyStopCall] ∨
    r.calls = [Call.enableMotorsCall, Call.homeAxisCall Axis.X,
      Call.homeAxisCall Axis.Y] ∨
    r.calls = [Call.enableMotorsCall, Call.homeAxisCall Axis.X,
      Call.homeAxisCall Axis.Y, Call.emergencyStopCall] := by
  unfold performHoming at h
  rcases hX : homeAxis eX (enableMotors now c) fuel with _ | rX <;> rw [hX] at h <;>
    dsimp only at h
  · exact Option.noConfusion h
  · split_ifs at h with h1 h2
    · injection h with h; subst h; simp
    · injection h with h; subst h; simp
    · rcases hY : homeAxis eY rX.ctrl fuel with _ | rY <;> rw [hY] at h <;>
        dsimp only at h
      · exact Option.noConfusion h
      · split_ifs at h with h3 h4
        · injection h with h; subst h; simp
        · injection h with h; subst h; simp
        · injection h with h; subst h; simp

/-- The recorded calls of extendSequence: always the full-travel Y-up
move first, then the full-travel X-out move, then the trigger wait, then
the retract calls. -/
theorem extend_shapes (ce : CycleEnv) (now : Nat) (c : Ctrl) (r : SeqRes)
    (h : extendSequence ce now c = some r) :
    r.calls = [yUpCall] ∨
    r.calls = [yUpCall, xOutCall] ∨
    r.calls = [yUpCall, xOutCall, Call.waitForButton] ∨
    r.calls = [yUpCall, xOutCall, Call.waitForButton, Call.moveToLimitCall Axis.X] ∨
    r.calls = [yUpCall, xOutCall, Call.waitForButton, Call.moveToLimitCall Axis.X,
      Call.emergencyStopCall] ∨
    r.calls = [yUpCall, xOutCall, Call.waitForButton, Call.moveToLimitCall Axis.X,
      Call.moveToLimitCall Axis.Y] ∨
    r.calls = [yUpCall, xOutCall, Call.waitForButton, Call.moveToLimitCall Axis.X,
      Call.moveToLimitCall Axis.Y, Call.emergencyStopCall] := by
  unfold extendSequence at h
  split_ifs at h with h1 h2
  · injection h with h; subst h; simp
  · injection h with h; subst h; simp
  · rcases hw : waitForButtonPress ce.waitEs ce.waitBtn ce.waitFuel with _ | w <;>
      rw [hw] at h
    · dsimp only at h
      exact Option.noConfusion h
    · cases w <;> dsimp only at h
      · injection h with h; subst h; simp
      · injection h with h; subst h
        rcases retract_shapes ce.retractX ce.retractY now
          (moveAxis ce.extendX (X_MAX_TRAVEL_MM * STEPS_PER_MM) now
            (moveAxis ce.extendY (Y_MAX_TRAVEL_MM * STEPS_PER_MM) now c).ctrl).ctrl with
          hr | hr | hr | hr <;> simp [hr]

/-- Claim C5: homing always moves X before Y, the extend sequence always
moves elevation up (full-travel fixed count) before horizontal out
(full-travel fixed count) before the trigger wait, and the retract
sequence always moves X to its limit before Y to its limit.  Each
conjunct lists every recorded call trace the sequence can produce, and in
every trace the claimed order holds. -/
theorem claim_C5 :
    (∀ (eX eY : Env) (fuel now : Nat) (c : Ctrl) (r : SeqRes),
      performHoming eX eY fuel now c = some r →
      r.calls = [Call.enableMotorsCall, Call.homeAxisCall Axis.X] ∨
      r.calls = [Call.enableMotorsCall, Call.homeAxisCall Axis.X,
        Call.emergencyStopCall] ∨
      r.calls = [Call.enableMotorsCall, Call.homeAxisCall Axis.X,
        Call.homeAxisCall Axis.Y] ∨
      r.calls = [Call.enableMotorsCall, Call.homeAxisCall Axis.X,
        Call.homeAxisCall Axis.Y, Call.emergencyStopCall]) ∧
    (∀ (ce : CycleEnv) (now : Nat) (c : Ctrl) (r : SeqRes),
      extendSequence ce now c = some r →
      r.calls = [yUpCall] ∨
      r.calls = [yUpCall, xOutCall] ∨
      r.calls = [yUpCall, xOutCall, Call.waitForButton] ∨
      r.calls = [yUpCall, xOutCall, Call.waitForButton,
        Call.moveToLimitCall Axis.X] ∨
      r.calls = [yUpCall, xOutCall, Call.waitForButton, Call.moveToLimitCall Axis.X,
        Call.emergencyStopCall] ∨
      r.calls = [yUpCall, xOutCall, Call.waitForButton, Call.moveToLimitCall Axis.X,
        Call.moveToLimitCall Axis.Y] ∨
      r.calls = [yUpCall, xOutCall, Call.waitForButton, Call.moveToLimitCall Axis.X,
        Call.moveToLimitCall Axis.Y, Call.emergencyStopCall]) ∧
    (∀ (eX eY : Env) (now : Nat) (c : Ctrl),
      (retractSequence eX eY now c).calls = [Call.moveToLimitCall Axis.X] ∨
      (retractSequence eX eY now c).calls =
        [Call.moveToLimitCall Axis.X, Call.emergencyStopCall] ∨
      (retractSequence eX eY now c).calls =
        [Call.moveToLimitCall Axis.X, Call.moveToLimitCall Axis.Y] ∨
      (retractSequence eX eY now c).calls =
        [Call.moveToLimitCall Axis.X, Call.moveToLimitCall Axis.Y,
         Call.emergencyStopCall]) :=
  ⟨fun eX eY fuel now c r h => performHoming_shapes eX eY fuel now c r h,
   fun ce now c r h => extend_shapes ce now c r h,
   fun eX eY now c => retract_shapes eX eY now c⟩

/-- Witness for claim C5: a homing run with both limits already asserted
produces the enable-then-X-then-Y trace. -/
theorem claim_C5_witness :
    (SeqRes.mk [Call.enableMotorsCall, Call.homeAxisCall Axis.X,
        Call.homeAxisCall Axis.Y]
      { currentState := .STATE_READY, isHomed := true, motorsEnabled := true,
        xEnableHigh := false, yEnableHigh := false, lastMotorActivity := 0 }
      false).calls =
      [Call.enableMotorsCall, Call.homeAxisCall Axis.X] ∨
    (SeqRes.mk [Call.enableMotorsCall, Call.homeAxisCall Axis.X,
        Call.homeAxisCall Axis.Y]
      { currentState := .STATE_READY, isHomed := true, motorsEnabled := true,
        xEnableHigh := false, yEnableHigh := false, lastMotorActivity := 0 }
      false).calls =
      [Call.enableMotorsCall, Call.homeAxisCall Axis.X, Call.emergencyStopCall] ∨
    (SeqRes.mk [Call.enableMotorsCall, Call.homeAxisCall Axis.X,
        Call.homeAxisCall Axis.Y]
      { currentState := .STATE_READY, isHomed := true, motorsEnabled := true,
        xEnableHigh := false, yEnableHigh := false, lastMotorActivity := 0 }
      false).calls =
      [Call.enableMotorsCall, Call.homeAxisCall Axis.X, Call.homeAxisCall Axis.Y] ∨
    (SeqRes.mk [Call.enableMotorsCall, Call.homeAxisCall Axis.X,
        Call.homeAxisCall Axis.Y]
      { currentState := .STATE_READY, isHomed := true, motorsEnabled := true,
        xEnableHigh := false, yEnableHigh := false, lastMotorActivity := 0 }
      false).calls =
      [Call.enableMotorsCall, Call.homeAxisCall Axis.X, Call.homeAxisCall Axis.Y,
        Call.emergencyStopCall] :=
  claim_C5.1 envLimitNow envLimitNow 1 0 initialCtrl _ rfl

/-! State effects of the primitives and sequences, building up to the
claim that STATE_RETRACTING is never assigned. -/

/-- State effect of moveAxisToLimit: a returning run preserves the state
variable and the homed flag; a halted run forces STOPPED and clears the
homed flag. -/
theorem mAL_state_cases (a : Axis) (env : Env) (now : Nat) (c : Ctrl) :
    ((moveAxisToLimit a env now c).halted = false →
      (moveAxisToLimit a env now c).ctrl.currentState = c.currentState ∧
      (moveAxisToLimit a env now c).ctrl.isHomed = c.isHomed) ∧
    ((moveAxisToLimit a env now c).halted = true →
      (moveAxisToLimit a env now c).ctrl.currentState = SystemState.STATE_STOPPED ∧
      (moveAxisToLimit a env now c).ctrl.isHomed = false) := by
  rw [mAL_halted, mAL_ctrl]
  constructor
  · intro hh
    cases hsb : (moveToLimitAux env now (enableMotors now c) (axisCapSteps a) 0 []).success
    · obtain ⟨hctrl, _⟩ :=
        mtl_fail env now (enableMotors now c) (axisCapSteps a) 0 [] hh hsb
      rw [hctrl]
      exact ⟨rfl, rfl⟩
    · have hctrl :=
        mtl_success_ctrl env now (enableMotors now c) (axisCapSteps a) 0 [] hh hsb
      rw [hctrl]
      exact ⟨rfl, rfl⟩
  · intro hh
    obtain ⟨hctrl, _⟩ := mtl_halted env now (enableMotors now c) (axisCapSteps a) 0 [] hh
    rw [hctrl]
    exact ⟨rfl, rfl⟩

/-- State effect of moveAxis: a returning run preserves the state
variable and the homed flag; a halted run forces STOPPED and clears the
homed flag. -/
theorem mA_state_cases (env : Env) (n now : Nat) (c : Ctrl) :
    ((moveAxis env n now c).halted = false →
      (moveAxis env n now c).ctrl.currentState = c.currentState ∧
      (moveAxis env n now c).ctrl.isHomed = c.isHomed) ∧
    ((moveAxis env n now c).halted = true →
      (moveAxis env n now c).ctrl.currentState = SystemState.STATE_STOPPED ∧
      (moveAxis env n now c).ctrl.isHomed = false) := by
  rw [mA_halted, mA_ctrl]
  obtain ⟨_, _, h3, h4, _⟩ := ma_spec env n now (enableMotors now c) n 0 []
  constructor
  · intro hh
    obtain ⟨_, _, hctrl⟩ := h4 hh
    rw [hctrl]
    exact ⟨rfl, rfl⟩
  · intro hh
    obtain ⟨hctrl, _⟩ := h3 hh
    rw [hctrl]
    exact ⟨rfl, rfl⟩

/-- State effect of retractSequence: it assigns the state variable only
at its final line, setting READY directly on completion; a halted run
ends in STOPPED. -/
theorem retract_state (eX eY : Env) (now : Nat) (c : Ctrl) :
    ((retractSequence eX eY now c).halted = false →
      (retractSequence eX eY now c).ctrl.currentState = SystemState.STATE_READY) ∧
    ((retractSequence eX eY now c).halted = true →
      (retractSequence eX eY now c).ctrl.currentState = SystemState.STATE_STOPPED) := by
  unfold retractSequence
  split_ifs with h1 h2 h3 h4
  · exact ⟨fun hc => (nomatch hc),
      fun _ => ((mAL_state_cases Axis.X eX now c).2 h1).1⟩
  · exact ⟨fun hc => (nomatch hc), fun _ => rfl⟩
  · exact ⟨fun hc => (nomatch hc),
      fun _ => ((mAL_state_cases Axis.Y eY now _).2 h3).1⟩
  · exact ⟨fun hc => (nomatch hc), fun _ => rfl⟩
  · exact ⟨fun _ => rfl, fun hc => (nomatch hc)⟩

/-- State effect of extendSequence: it performs no state assignment of
its own, so a completed run ends in the READY set by retractSequence and
a halted run ends in STOPPED. -/
theorem extend_state (ce : CycleEnv) (now : Nat) (c : Ctrl) (r : SeqRes)
    (h : extendSequence ce now c = some r) :
    (r.halted = false → r.ctrl.currentState = SystemState.STATE_READY) ∧
    (r.halted = true → r.ctrl.currentState = SystemState.STATE_STOPPED) := by
  unfold extendSequence at h
  split_ifs at h with h1 h2
  · injection h with h; subst h
    exact ⟨fun hc => (nomatch hc),
      fun _ => ((mA_state_cases ce.extendY (Y_MAX_TRAVEL_MM * STEPS_PER_MM) now c).2
        h1).1⟩
  · injection h with h; subst h
    exact ⟨fun hc => (nomatch hc),
      fun _ => ((mA_state_cases ce.extendX (X_MAX_TRAVEL_MM * STEPS_PER_MM) now _).2
        h2).1⟩
  · rcases hw : waitForButtonPress ce.waitEs ce.waitBtn ce.waitFuel with _ | w <;>
      rw [hw] at h
    · dsimp only at h
      exact Option.noConfusion h
    · cases w <;> dsimp only at h
      · injection h with h; subst h
        exact ⟨fun hc => (nomatch hc), fun _ => rfl⟩
      · injection h with h; subst h
        exact ⟨fun hh => (retract_state ce.retractX ce.retractY now _).1 hh,
          fun hh => (retract_state ce.retractX ce.retractY now _).2 hh⟩

/-- State effect of performHoming: a completed run ends in READY with the
homed flag set; a halted run ends in STOPPED. -/
theorem ph_state (eX eY : Env) (fuel now : Nat) (c : Ctrl) (r : SeqRes)
    (h : performHoming eX eY fuel now c = some r) :
    (r.halted = false → r.ctrl.currentState = SystemState.STATE_READY ∧
      r.ctrl.isHomed = true) ∧
    (r.halted = true → r.ctrl.currentState = SystemState.STATE_STOPPED) := by
  unfold performHoming at h
  rcases hX : homeAxis eX (enableMotors now c) fuel with _ | rX <;> rw [hX] at h <;>
    dsimp only at h
  · exact Option.noConfusion h
  · obtain ⟨hXhalt, hXret⟩ := homeAxis_spec eX (enableMotors now c) fuel rX hX
    split_ifs at h with h1 h2
    · injection h with h; subst h
      refine ⟨fun hc => (nomatch hc), fun _ => ?_⟩
      rw [(hXhalt h1).1]
      rfl
    · exfalso
      have hf : rX.halted = false := by
        cases hhb : rX.halted
        · rfl
        · exact absurd hhb h1
      exact absurd (hXret hf).1 (by simp [h2])
    · rcases hY : homeAxis eY rX.ctrl fuel with _ | rY <;> rw [hY] at h <;>
        dsimp only at h
      · exact Option.noConfusion h
      · obtain ⟨hYhalt, hYret⟩ := homeAxis_spec eY rX.ctrl fuel rY hY
        split_ifs at h with h3 h4
        · injection h with h; subst h
          refine ⟨fun hc => (nomatch hc), fun _ => ?_⟩
          rw [(hYhalt h3).1]
          rfl
        · exfalso
          have hf : rY.halted = false := by
            cases hhb : rY.halted
            · rfl
            · exact absurd hhb h3
          exact absurd (hYret hf).1 (by simp [h4])
        · injection h with h; subst h
          exact ⟨fun _ => ⟨rfl, rfl⟩, fun hc => (nomatch hc)⟩

/-- One loop() iteration never assigns STATE_RETRACTING. -/
theorem loopStep_states (le : LoopEnv) (esNow btnPressed : Bool) (now : Nat) (c : Ctrl)
    (p : Ctrl × Bool) (hc : c.currentState ≠ SystemState.STATE_RETRACTING)
    (h : loopStep le esNow btnPressed now c = some p) :
    p.1.currentState ≠ SystemState.STATE_RETRACTING := by
  unfold loopStep at h
  by_cases h1 : esNow = true
  · rw [if_pos h1] at h
    injection h with h; subst h
    simp [emergencyStop]
  · rw [if_neg h1] at h
    obtain ⟨hckS, hckH⟩ := checkMotorIdle_state now c
    cases hs : (checkMotorIdle now c).currentState <;> rw [hs] at h <;> dsimp only at h
    · injection h with h; subst h
      rw [hckS]
      exact hc
    · injection h with h; subst h
      rw [hckS]
      exact hc
    · by_cases hb : btnPressed = true
      · rw [if_pos hb] at h
        by_cases hhom : (checkMotorIdle now c).isHomed = false
        · rw [if_pos hhom] at h
          rcases hph : performHoming le.homeX le.homeY le.fuel now
              { checkMotorIdle now c with currentState := .STATE_HOMING } with _ | r <;>
            rw [hph] at h <;> dsimp only [Option.map] at h
          · exact Option.noConfusion h
          · injection h with h; subst h
            obtain ⟨hdone, hhalt⟩ := ph_state _ _ _ _ _ _ hph
            cases hrh : r.halted
            · rw [(hdone hrh).1]
              simp
            · rw [hhalt hrh]
              simp
        · rw [if_neg hhom] at h
          rcases hex : extendSequence le.cycle now
              { checkMotorIdle now c with currentState := .STATE_EXTENDING } with _ | r <;>
            rw [hex] at h <;> dsimp only [Option.map] at h
          · exact Option.noConfusion h
          · injection h with h; subst h
            obtain ⟨hdone, hhalt⟩ := extend_state _ _ _ _ hex
            cases hrh : r.halted
            · rw [hdone hrh]
              simp
            · rw [hhalt hrh]
              simp
      · rw [if_neg hb] at h
        injection h with h; subst h
        rw [hckS]
        exact hc
    · injection h with h; subst h
      simp
    · injection h with h; subst h
      rw [hckS]
      exact hc
    · injection h with h; subst h
      rw [hckS]
      exact hc
    · injection h with h; subst h
      rw [hckS]
      exact hc

/-- The setup transition never assigns STATE_RETRACTING. -/
theorem setup_states (le : LoopEnv) (now : Nat) (p : Ctrl × Bool)
    (h : setup le now = some p) :
    p.1.currentState ≠ SystemState.STATE_RETRACTING := by
  unfold setup at h
  rw [if_neg (by decide), if_pos (by decide)] at h
  rcases hph : performHoming le.homeX le.homeY le.fuel now
      { initialCtrl with currentState := .STATE_HOMING } with _ | r <;>
    rw [hph] at h <;> dsimp only [Option.map] at h
  · exact Option.noConfusion h
  · injection h with h; subst h
    obtain ⟨hdone, hhalt⟩ := ph_state _ _ _ _ _ _ hph
    cases hrh : r.halted
    · rw [(hdone hrh).1]
      simp
    · rw [hhalt hrh]
      simp

/-- Claim C10: the state variable never takes the value
STATE_RETRACTING: the motion primitives preserve the state (or force
STOPPED when halted), the whole extend / wait / retract cycle therefore
runs with whatever state loop() set (EXTENDING), retractSequence sets the
state directly back to READY on completion, and neither a loop iteration
nor setup can produce STATE_RETRACTING from a state that is not already
it. -/
theorem claim_C10 :
    (∀ (a : Axis) (env : Env) (now : Nat) (c : Ctrl),
      ((moveAxisToLimit a env now c).halted = false →
        (moveAxisToLimit a env now c).ctrl.currentState = c.currentState) ∧
      ((moveAxisToLimit a env now c).halted = true →
        (moveAxisToLimit a env now c).ctrl.currentState =
          SystemState.STATE_STOPPED)) ∧
    (∀ (env : Env) (n now : Nat) (c : Ctrl),
      ((moveAxis env n now c).halted = false →
        (moveAxis env n now c).ctrl.currentState = c.currentState) ∧
      ((moveAxis env n now c).halted = true →
        (moveAxis env n now c).ctrl.currentState = SystemState.STATE_STOPPED)) ∧
    (∀ (eX eY : Env) (now : Nat) (c : Ctrl),
      ((retractSequence eX eY now c).halted = false →
        (retractSequence eX eY now c).ctrl.currentState =
          SystemState.STATE_READY) ∧
      ((retractSequence eX eY now c).halted = true →
        (retractSequence eX eY now c).ctrl.currentState =
          SystemState.STATE_STOPPED)) ∧
    (∀ (ce : CycleEnv) (now : Nat) (c : Ctrl) (r : SeqRes),
      extendSequence ce now c = some r →
      (r.halted = false → r.ctrl.currentState = SystemState.STATE_READY) ∧
      (r.halted = true → r.ctrl.currentState = SystemState.STATE_STOPPED)) ∧
    (∀ (le : LoopEnv) (esNow btnPressed : Bool) (now : Nat) (c : Ctrl)
        (p : Ctrl × Bool),
      c.currentState ≠ SystemState.STATE_RETRACTING →
      loopStep le esNow btnPressed now c = some p →
      p.1.currentState ≠ SystemState.STATE_RETRACTING) ∧
    (∀ (le : LoopEnv) (now : Nat) (p : Ctrl × Bool),
      setup le now = some p →
      p.1.currentState ≠ SystemState.STATE_RETRACTING) :=
  ⟨fun a env now c => ⟨fun hh => ((mAL_state_cases a env now c).1 hh).1,
      fun hh => ((mAL_state_cases a env now c).2 hh).1⟩,
   fun env n now c => ⟨fun hh => ((mA_state_cases env n now c).1 hh).1,
      fun hh => ((mA_state_cases env n now c).2 hh).1⟩,
   fun eX eY now c => retract_state eX eY now c,
   fun ce now c r h => extend_state ce now c r h,
   fun le esNow btnPressed now c p hc h => loopStep_states le esNow btnPressed now c p hc h,
   fun le now p h => setup_states le now p h⟩

/-- Witness for claim C10: a retract run with both limits already
asserted completes and sets the state directly back to READY. -/
theorem claim_C10_witness :
    (retractSequence envLimitNow envLimitNow 0 extendingCtrl).ctrl.currentState =
      SystemState.STATE_READY :=
  (claim_C10.2.2.1 envLimitNow envLimitNow 0 extendingCtrl).1 rfl

/-! Claim C8: the motor enable lifecycle. -/

/-- Claim C8 (amended): the motion primitives moveAxisToLimit, moveAxis
and doSteps each enable the drivers and wait out the settling delay
before their first step pulse (their event trace is the enable and settle
events followed by pulses only), performHoming enables the motors before
its homing moves, and the idle check disables the drivers exactly when
they are enabled and the elapsed idle time strictly exceeds
MOTOR_IDLE_TIMEOUT — at the boundary it leaves the controller untouched.
The test-mode measure-travel routine, however, emits step pulses without
enabling the drivers (see the counterexample), so the enable-before-pulse
guarantee does not cover every step emission in test mode. -/
theorem claim_C8_amended :
    (∀ (a : Axis) (env : Env) (now : Nat) (c : Ctrl), ∃ ds : List Nat,
      (moveAxisToLimit a env now c).events =
        Ev.enable :: Ev.settle :: ds.map Ev.pulse) ∧
    (∀ (env : Env) (n now : Nat) (c : Ctrl), ∃ ds : List Nat,
      (moveAxis env n now c).events = Ev.enable :: Ev.settle :: ds.map Ev.pulse) ∧
    (∀ (env : Env) (n t now : Nat) (c : Ctrl), ∃ ds : List Nat,
      (doSteps env n t now c).events = Ev.enable :: Ev.settle :: ds.map Ev.pulse) ∧
    (∀ (eX eY : Env) (fuel now : Nat) (c : Ctrl) (r : SeqRes),
      performHoming eX eY fuel now c = some r →
      r.calls.head? = some Call.enableMotorsCall) ∧
    (∀ (now : Nat) (c : Ctrl), now - c.lastMotorActivity ≤ MOTOR_IDLE_TIMEOUT →
      checkMotorIdle now c = c) ∧
    (∀ (now : Nat) (c : Ctrl), c.motorsEnabled = true →
      MOTOR_IDLE_TIMEOUT < now - c.lastMotorActivity →
      checkMotorIdle now c = disableMotors c) ∧
    (∀ (now : Nat) (c : Ctrl), (checkMotorIdle now c).motorsEnabled = false ↔
      (c.motorsEnabled = false ∨
        MOTOR_IDLE_TIMEOUT < now - c.lastMotorActivity)) := by
  refine ⟨?_, ?_, ?_, ?_, ?_, ?_, ?_⟩
  · intro a env now c
    refine ⟨(List.range' 0 ((moveToLimitAux env now (enableMotors now c)
      (axisCapSteps a) 0 []).steps)).map (limitSeekDelay NORMAL_SPEED_DELAY), ?_⟩
    rw [mAL_events, mtl_events]
    simp [List.map_map, Function.comp]
  · intro env n now c
    obtain ⟨_, hev, _, _, _⟩ := ma_spec env n now (enableMotors now c) n 0 []
    refine ⟨(List.range' 0 ((moveAxisAux env n now
      (enableMotors now c) n 0 []).steps)).map (doStepsDelay n NORMAL_SPEED_DELAY), ?_⟩
    rw [mA_events, hev]
    simp [List.map_map, Function.comp]
  · intro env n t now c
    refine ⟨(List.range' 0 n).map (doStepsDelay n t), ?_⟩
    rw [show (doSteps env n t now c).events = Ev.enable :: Ev.settle ::
        (doStepsAux n t now (enableMotors now c) n 0 []).events from rfl, ds_run]
    simp [List.map_map, Function.comp]
  · intro eX eY fuel now c r h
    rcases performHoming_shapes eX eY fuel now c r h with hr | hr | hr | hr <;> simp [hr]
  · intro now c hle
    rw [checkMotorIdle, if_neg]
    intro hx
    omega
  · intro now c hen hgt
    rw [checkMotorIdle, if_pos ⟨hen, hgt⟩]
  · intro now c
    rw [checkMotorIdle]
    split_ifs with hcond
    · simp only [disableMotors]
      exact ⟨fun _ => Or.inr hcond.2, fun _ => trivial⟩
    · rw [not_and] at hcond
      constructor
      · intro hL
        exact Or.inl hL
      · rintro (hL | hR)
        · exact hL
        · cases hE : c.motorsEnabled
          · rfl
          · exact absurd hR (hcond hE)

/-- Witness for claim C8 (amended): idle for exactly the timeout the
drivers stay enabled; one millisecond beyond it they are disabled. -/
theorem claim_C8_witness :
    checkMotorIdle 2000 extendingCtrl = extendingCtrl ∧
    checkMotorIdle 2001 extendingCtrl = disableMotors extendingCtrl := by
  constructor
  · exact claim_C8_amended.2.2.2.2.1 2000 extendingCtrl (by decide)
  · exact claim_C8_amended.2.2.2.2.2.1 2001 extendingCtrl rfl (by decide)

/-- Claim C8 counterexample: the test-mode measure-travel loop (lines
574-589) contains no enableMotors call: starting with the drivers
disabled (as happens after the idle timeout, which testMode keeps
polling), it emits two step pulses with the motors still disabled and no
enable event anywhere in its trace, so the claim that the drivers are
enabled before any step pulse in every execution including test mode is
false on the code. -/
theorem claim_C8_counterexample :
    (measureTravel hitAt2Env readyIdleCtrl).2.1 =
      [Ev.pulse TEST_SPEED_DELAY, Ev.pulse TEST_SPEED_DELAY] ∧
    Ev.enable ∉ (measureTravel hitAt2Env readyIdleCtrl).2.1 ∧
    (measureTravel hitAt2Env readyIdleCtrl).2.2.motorsEnabled = false ∧
    readyIdleCtrl.motorsEnabled = false := by
  decide

end Shrine
